import Mathlib

/-!
# Verification of the agent GitHub-integration scripts

Shallow embedding of `scripts/github_integrator.py`,
`scripts/validate_agent_task.py`, `scripts/validate_agent_report.py` and
`scripts/validate_agent_linkage.py`.

Conventions:
* Python strings are `Str := List Char`; Python `str.lower` is modelled on
  the ASCII range (`lowerChar`).
* YAML values are the inductive `Val`; Python `dict` is an association list
  `List (Str × Val)` with insertion-order semantics (`assocGet`/`assocSet`).
* `x.get(k)` (which yields `None` both for a missing key and for an explicit
  null) is `pyGet`; key membership `k in d` is `(assocGet d k).isSome`.
* Fallible code paths (Python exceptions) are modelled with `Option`.
* External collaborators (git, the GitHub API, the filesystem) appear as
  explicit inputs: the issue store is a list of issues, the git outcomes are
  an oracle record, the parsed YAML documents are given as values.
-/

abbrev Str := List Char

/-- Does `p` occur at the start of `s`? (Python `str.startswith`.) -/
def strStarts : Str → Str → Bool
  | [], _ => true
  | _ :: _, [] => false
  | p :: ps, c :: cs => p == c && strStarts ps cs

/-- Does `pat` occur anywhere in `s`? (Python `pat in s`.) -/
def containsSub (pat : Str) : Str → Bool
  | [] => strStarts pat []
  | c :: rest => strStarts pat (c :: rest) || containsSub pat rest

/-- ASCII model of Python `str.lower` on a single character. -/
def lowerChar (c : Char) : Char :=
  if 'A' ≤ c ∧ c ≤ 'Z' then Char.ofNat (c.toNat + 32) else c

/-- ASCII model of Python `str.lower`. -/
def lowerStr (s : Str) : Str := s.map lowerChar

/-- Python regex class `\w` (word character), ASCII range. -/
def isWordChar (c : Char) : Bool := c.isAlphanum || c == '_'

/-- Python regex class `\s` (whitespace), ASCII range. -/
def isSpaceChar (c : Char) : Bool :=
  c == ' ' || c == '\t' || c == '\n' || c == '\r' || c == '\x0b' || c == '\x0c'

/-- The characters kept by `re.sub(r'[^\w\s-]', '', s)`. -/
def keepChar (c : Char) : Bool := isWordChar c || isSpaceChar c || c == '-'

/-- The character class `[-\s]` of `_generate_branch_name`. -/
def isDashSpace (c : Char) : Bool := c == '-' || isSpaceChar c

/-- Worker for `collapseRuns`; the flag records a pending run of `[-\s]`
characters that must be rendered as a single `'-'`. -/
def collapseRunsAux : Bool → Str → Str
  | true, [] => ['-']
  | false, [] => []
  | b, c :: rest =>
    if isDashSpace c then collapseRunsAux true rest
    else if b then '-' :: c :: collapseRunsAux false rest
    else c :: collapseRunsAux false rest

/-- `re.sub(r'[-\s]+', '-', s)`: every maximal run of hyphens/whitespace
becomes a single hyphen. -/
def collapseRuns (s : Str) : Str := collapseRunsAux false s

/-- Python `s.strip('-')`. -/
def stripDash (s : Str) : Str :=
  ((s.dropWhile (· == '-')).reverse.dropWhile (· == '-')).reverse

/-- The title slug built by `GitHubIntegrator._generate_branch_name`
(github_integrator.py lines 535-538): lower-case, drop characters outside
`[\w\s-]`, collapse `[-\s]+` runs to `'-'`, truncate to 30, strip `'-'`. -/
def slugOf (title : Str) : Str :=
  stripDash (List.take 30 (collapseRuns ((lowerStr title).filter keepChar)))

/-- Python `s.rsplit('-', 1)[0]`: everything before the last `'-'`, or the
whole string when there is no `'-'`. -/
def beforeLastDash : Str → Str
  | [] => []
  | c :: rest =>
    if rest.contains '-' then c :: beforeLastDash rest
    else if c == '-' then []
    else c :: rest

/-- `GitHubIntegrator._generate_branch_name` (github_integrator.py
lines 532-546). -/
def genBranchName (taskId title : Str) : Str :=
  if ("feature/".data ++ taskId ++ '-' :: slugOf title).length > 50 then
    beforeLastDash (("feature/".data ++ taskId ++ '-' :: slugOf title).take 50)
  else "feature/".data ++ taskId ++ '-' :: slugOf title

/-- Commit type inference of `GitHubIntegrator._generate_commit_message`
(github_integrator.py lines 582-592). -/
def commitType (title : Str) : Str :=
  if containsSub "fix".data (lowerStr title) || containsSub "bug".data (lowerStr title) then
    "fix".data
  else if containsSub "test".data (lowerStr title) then "test".data
  else if containsSub "doc".data (lowerStr title) then "docs".data
  else if containsSub "refactor".data (lowerStr title) then "refactor".data
  else "feat".data

/-- `desc = re.sub(r'[^\w\s-]', '', task.title.lower())[:50]`
(github_integrator.py lines 595-596). -/
def commitDesc (title : Str) : Str := List.take 50 ((lowerStr title).filter keepChar)

/-- Decimal digits of a natural number (helper for rendering `#<n>`);
the first argument is recursion fuel. -/
def natToStrAux : Nat → Nat → Str
  | 0, _ => []
  | fuel + 1, n =>
    if n < 10 then [Nat.digitChar n]
    else natToStrAux fuel (n / 10) ++ [Nat.digitChar (n % 10)]

/-- Decimal rendering of a natural number (Python `str(n)` for `n ≥ 0`). -/
def natToStr (n : Nat) : Str := natToStrAux (n + 1) n

/-- The list of commit-message lines built by
`GitHubIntegrator._generate_commit_message` (github_integrator.py
lines 598-611).  `issueNumber` models `issue_data.get("number")`; the
`Closes` footer is appended only when that value is truthy in Python,
i.e. a non-zero number (`None` and `0` are both falsy). -/
def genCommitLines (taskId title goal : Str) (acs : List Str) (issueNumber : Option Nat) :
    List Str :=
  ([commitType title ++ '(' :: taskId ++ ')' :: ':' :: ' ' :: commitDesc title,
    [],
    '-' :: ' ' :: goal]
   ++ (acs.take 3).map (fun crit => '-' :: ' ' :: crit))
  ++ (match issueNumber with
      | some (n + 1) => [[], "Closes #".data ++ natToStr (n + 1)]
      | _ => [])

/-- Python `"\n".join`. -/
def joinNL : List Str → Str
  | [] => []
  | [l] => l
  | l :: rest => l ++ '\n' :: joinNL rest

/-- `GitHubIntegrator._generate_commit_message` (github_integrator.py
lines 579-613). -/
def genCommitMessage (taskId title goal : Str) (acs : List Str)
    (issueNumber : Option Nat) : Str :=
  joinNL (genCommitLines taskId title goal acs issueNumber)

/-- The first line of a rendered message (the characters before the first
newline). -/
def firstLine : Str → Str
  | [] => []
  | c :: rest => if c = '\n' then [] else c :: firstLine rest

/-- Worker for `pyReplaceEmpty`: scan left to right, removing each
non-overlapping occurrence of `pat`; the fuel (one unit per consumed
character) makes the recursion structural. -/
def removeAllAux (pat : Str) : Nat → Str → Str
  | 0, s => s
  | _ + 1, [] => []
  | fuel + 1, c :: rest =>
    if strStarts pat (c :: rest) then removeAllAux pat fuel (List.drop (pat.length - 1) rest)
    else c :: removeAllAux pat fuel rest

/-- Python `s.replace(pat, "")` (left-to-right, non-overlapping). -/
def pyReplaceEmpty (pat s : Str) : Str := removeAllAux pat s.length s

/-- Worker for `pySplitLast`, with the same fuel discipline. -/
def lastPartAux (pat : Str) : Nat → Str → Str
  | 0, s => s
  | _ + 1, [] => []
  | fuel + 1, c :: rest =>
    if strStarts pat (c :: rest) then lastPartAux pat fuel (List.drop (pat.length - 1) rest)
    else if containsSub pat rest then lastPartAux pat fuel rest
    else c :: rest

/-- Python `s.split(pat)[-1]`: the suffix after the last (left-to-right,
non-overlapping) occurrence of `pat`, or the whole string when there is
none. -/
def pySplitLast (pat s : Str) : Str := lastPartAux pat s.length s

/-- URL parsing of `GitHubIntegrator._detect_repository`
(github_integrator.py lines 183-206); `none` for the remote models the
`git remote get-url origin` failure branch. -/
def parseRemote : Option Str → Option Str
  | none => none
  | some url =>
    if containsSub "github.com".data url then
      if strStarts "git@github.com:".data (pyReplaceEmpty ".git".data url) then
        some (pyReplaceEmpty "git@github.com:".data (pyReplaceEmpty ".git".data url))
      else if containsSub "github.com/".data (pyReplaceEmpty ".git".data url) then
        some (pySplitLast "github.com/".data (pyReplaceEmpty ".git".data url))
      else none
    else none

/-- `GitHubIntegrator._detect_repository` (github_integrator.py
lines 177-206).  `env` models `os.getenv("GITHUB_REPOSITORY")`; Python's
truthiness test means an empty-string override is ignored. -/
def detectRepository (env : Option Str) (remote : Option Str) : Option Str :=
  match env with
  | some (c :: s) => some (c :: s)
  | _ => parseRemote remote

/-- YAML values as loaded by `yaml.safe_load`. -/
inductive Val where
  | vnull
  | vbool (b : Bool)
  | vint (n : Int)
  | vstr (s : Str)
  | vlist (xs : List Val)
  | vmap (m : List (Str × Val))

mutual

/-- Python `==` on YAML values. -/
def valBEq : Val → Val → Bool
  | .vnull, .vnull => true
  | .vbool a, .vbool b => a == b
  | .vint a, .vint b => a == b
  | .vstr a, .vstr b => a == b
  | .vlist xs, .vlist ys => valListBEq xs ys
  | .vmap xs, .vmap ys => valMapBEq xs ys
  | _, _ => false
  termination_by structural v _ => v

def valListBEq : List Val → List Val → Bool
  | [], [] => true
  | x :: xs, y :: ys => valBEq x y && valListBEq xs ys
  | _, _ => false
  termination_by structural l _ => l

def valMapBEq : List (Str × Val) → List (Str × Val) → Bool
  | [], [] => true
  | (k, v) :: xs, (k2, v2) :: ys => k == k2 && valBEq v v2 && valMapBEq xs ys
  | _, _ => false
  termination_by structural l _ => l

end

/-- Python `v in xs` for YAML values. -/
def valMem (v : Val) (xs : List Val) : Bool := xs.any (fun e => valBEq v e)

/-- Lookup in a Python dict (`d[k]` when present). -/
def assocGet : List (Str × Val) → Str → Option Val
  | [], _ => none
  | (k, v) :: rest, key => if k == key then some v else assocGet rest key

/-- Python dict assignment `d[k] = v`: update in place, else append. -/
def assocSet : List (Str × Val) → Str → Val → List (Str × Val)
  | [], key, v => [(key, v)]
  | (k, w) :: rest, key, v => if k == key then (k, v) :: rest else (k, w) :: assocSet rest key v

/-- Python `d.get(k)`: `None` both for a missing key and an explicit null. -/
def pyGet (d : List (Str × Val)) (k : Str) : Val := (assocGet d k).getD .vnull

/-- `_is_list_of_str` of the validators (validate_agent_report.py
lines 26-27). -/
def isListOfStr : Val → Bool
  | .vlist xs => xs.all fun v => match v with | .vstr _ => true | _ => false
  | _ => false

/-- Python truthiness of a YAML value. -/
def valTruthy : Val → Bool
  | .vnull => false
  | .vbool b => b
  | .vint n => n != 0
  | .vstr s => !s.isEmpty
  | .vlist xs => !xs.isEmpty
  | .vmap m => !m.isEmpty

/-- The report contract, already well-formed (a YAML mapping whose
recognised fields have the shape the validator reads through `.get`
chains): `required_fields`, `enums.status`, `constraints.summary_max_lines`,
`acceptance_criteria_results_item.required_fields`,
`verification.required_fields`. -/
structure ReportContract where
  required : List Str
  enumsStatus : List Val
  summaryMaxLines : Option Int
  acrItemRequired : List Str
  verifRequired : List Str

/-- The violations `validate_report` can emit, one constructor per
`errors.append` site of validate_agent_report.py (plus the two batch-level
violations of `main`). -/
inductive RViol where
  | missingRequired (field : Str)
  | statusNotInEnum (status : Val) (allowed : List Val)
  | summaryNotListOfStr
  | summaryTooLong (n : Nat) (maxLines : Int)
  | acrNotNonEmptyList
  | acrItemNotMap (i : Nat)
  | acrItemMissing (i : Nat) (field : Str)
  | acrPassedNotBool (i : Nat)
  | filesNotList
  | filesItemBad (i : Nat)
  | verifNotMap
  | verifMissing (field : Str)
  | verifCommandsNotListOfStr
  | verifResultsNotListOfStr
  | extraListNotListOfStr (field : Str)
  | parseFailed
  | topNotMap

/-- `validate_report`, "Required top-level fields" block
(validate_agent_report.py lines 44-47). -/
def vrRequiredBlock (doc : List (Str × Val)) (c : ReportContract) : List RViol :=
  (c.required.filter (fun k => (assocGet doc k).isNone)).map .missingRequired

/-- `validate_report`, "Status enum" block (validate_agent_report.py
lines 50-53). -/
def vrStatusBlock (doc : List (Str × Val)) (c : ReportContract) : List RViol :=
  if valMem (pyGet doc "status".data) c.enumsStatus then []
  else [.statusNotInEnum (pyGet doc "status".data) c.enumsStatus]

/-- `validate_report`, "Summary constraints" block (validate_agent_report.py
lines 56-62). -/
def vrSummaryBlock (doc : List (Str × Val)) (c : ReportContract) : List RViol :=
  if isListOfStr (pyGet doc "summary".data) then
    (match pyGet doc "summary".data with
     | .vlist xs =>
       if (xs.length : Int) > c.summaryMaxLines.getD 6 then
         [.summaryTooLong xs.length (c.summaryMaxLines.getD 6)]
       else []
     | _ => [])
  else [.summaryNotListOfStr]

/-- `validate_report`, "Acceptance criteria results shape" block
(validate_agent_report.py lines 65-78). -/
def vrAcrBlock (doc : List (Str × Val)) (c : ReportContract) : List RViol :=
  match pyGet doc "acceptance_criteria_results".data with
  | .vlist (x :: xs) =>
    (x :: xs).enum.flatMap fun p =>
      match p.2 with
      | .vmap m =>
        (c.acrItemRequired.filter (fun k => (assocGet m k).isNone)).map (.acrItemMissing p.1)
        ++ (match assocGet m "passed".data with
            | some (.vbool _) => []
            | some _ => [.acrPassedNotBool p.1]
            | none => [])
      | _ => [.acrItemNotMap p.1]
  | _ => [.acrNotNonEmptyList]

/-- `validate_report`, "Files modified shape" block
(validate_agent_report.py lines 81-87). -/
def vrFilesBlock (doc : List (Str × Val)) : List RViol :=
  match pyGet doc "files_modified".data with
  | .vlist xs =>
    xs.enum.flatMap fun p =>
      match p.2 with
      | .vmap m =>
        if (assocGet m "path".data).isNone || (assocGet m "description".data).isNone then
          [.filesItemBad p.1]
        else []
      | _ => [.filesItemBad p.1]
  | _ => [.filesNotList]

/-- `validate_report`, "Verification shape" block
(validate_agent_report.py lines 90-101). -/
def vrVerifBlock (doc : List (Str × Val)) (c : ReportContract) : List RViol :=
  match pyGet doc "verification".data with
  | .vmap m =>
    (c.verifRequired.filter (fun k => (assocGet m k).isNone)).map .verifMissing
    ++ (match assocGet m "commands_run".data with
        | some v => if isListOfStr v then [] else [.verifCommandsNotListOfStr]
        | none => [])
    ++ (match assocGet m "results".data with
        | some v => if isListOfStr v then [] else [.verifResultsNotListOfStr]
        | none => [])
  | _ => [.verifNotMap]

/-- `validate_report`, "Risks + next steps" block
(validate_agent_report.py lines 104-106). -/
def vrExtraBlock (doc : List (Str × Val)) : List RViol :=
  ["risks".data, "next_steps".data].flatMap fun k =>
    match assocGet doc k with
    | some v => if isListOfStr v then [] else [.extraListNotListOfStr k]
    | none => []

/-- `validate_report` (validate_agent_report.py lines 40-108): the blocks
in source order. -/
def validateReport (doc : List (Str × Val)) (c : ReportContract) : List RViol :=
  vrRequiredBlock doc c ++ vrStatusBlock doc c ++ vrSummaryBlock doc c
  ++ vrAcrBlock doc c ++ vrFilesBlock doc ++ vrVerifBlock doc c ++ vrExtraBlock doc

/-- Is a violation the status-enum violation of validate_agent_report.py
lines 50-53? -/
def isStatusViol : RViol → Bool
  | .statusNotInEnum _ _ => true
  | _ => false

/-- Does the violation list carry a status-enum violation? -/
def hasStatusViol (vs : List RViol) : Bool := vs.any isStatusViol

/-- The task contract (only `required_fields` is read by
`validate_task`). -/
structure TaskContract where
  required : List Str

/-- The violations `validate_task` can emit, one constructor per
`errors.append` site of validate_agent_task.py (plus the two batch-level
violations of `main`). -/
inductive TViol where
  | missingRequired (field : Str)
  | contextTooLong (n : Nat)
  | fieldNotListOfStr (field : Str)
  | acNotListOfStr
  | acEmpty
  | routingNotMap
  | routingMissingPlaybook
  | routingMissingContracts
  | routingContractsNotListOfStr
  | parseFailed
  | topNotMap

/-- Line-terminator characters of Python `str.splitlines` (the BMP ones
outside the surrogate range). -/
def isLineTermChar (c : Char) : Bool :=
  c == '\n' || c == '\r' || c == '\x0b' || c == '\x0c' ||
  c == '\x1c' || c == '\x1d' || c == '\x1e' || c == '\x85' ||
  c == '\u2028' || c == '\u2029'

/-- Worker for `splitlinesCount`; the flag records an open line. -/
def splitlinesCountAux : Bool → Str → Nat
  | b, [] => if b then 1 else 0
  | _, '\r' :: '\n' :: rest => 1 + splitlinesCountAux false rest
  | _, c :: rest =>
    if isLineTermChar c then 1 + splitlinesCountAux false rest
    else splitlinesCountAux true rest

/-- `len(s.splitlines())` in Python. -/
def splitlinesCount (s : Str) : Nat := splitlinesCountAux false s

/-- `validate_task` (validate_agent_task.py lines 40-83), block by block
in source order. -/
def validateTask (doc : List (Str × Val)) (c : TaskContract) : List TViol :=
  (c.required.filter (fun k => (assocGet doc k).isNone)).map .missingRequired
  ++ (match pyGet doc "context".data with
      | .vstr s => if splitlinesCount s > 10 then [.contextTooLong (splitlinesCount s)] else []
      | _ => [])
  ++ (["inputs".data, "outputs".data].flatMap fun field =>
      match pyGet doc field with
      | .vnull => []
      | v => if isListOfStr v then [] else [.fieldNotListOfStr field])
  ++ (match pyGet doc "acceptance_criteria".data with
      | .vnull => []
      | v =>
        if isListOfStr v then
          (match v with
           | .vlist [] => [.acEmpty]
           | _ => [])
        else [.acNotListOfStr])
  ++ (match pyGet doc "routing".data with
      | .vnull => []
      | .vmap r =>
        (if (assocGet r "playbook".data).isNone then [.routingMissingPlaybook] else [])
        ++ (if (assocGet r "contracts".data).isNone then [.routingMissingContracts]
            else if isListOfStr ((assocGet r "contracts".data).getD (.vlist [])) then []
            else [.routingContractsNotListOfStr])
      | _ => [.routingNotMap])

/-- The result of `yaml.safe_load` on one file: a parse failure or a
value. -/
inductive ParseResult where
  | failed
  | parsed (v : Val)

/-- The violations one file contributes in `main` of
validate_agent_report.py (lines 131-143): a parse failure and a non-mapping
top level are each a single violation, otherwise `validate_report` runs. -/
def perFileReport (r : ParseResult) (c : ReportContract) : List RViol :=
  match r with
  | .failed => [.parseFailed]
  | .parsed (.vmap m) => validateReport m c
  | .parsed _ => [.topNotMap]

/-- The batch loop of `main` in validate_agent_report.py: every file is
processed and contributes its violations, tagged with its path. -/
def runReportBatch (files : List (Str × ParseResult)) (c : ReportContract) :
    List (Str × RViol) :=
  files.flatMap fun f => (perFileReport f.2 c).map fun v => (f.1, v)

/-- The violations one file contributes in `main` of
validate_agent_task.py (lines 109-121). -/
def perFileTask (r : ParseResult) (c : TaskContract) : List TViol :=
  match r with
  | .failed => [.parseFailed]
  | .parsed (.vmap m) => validateTask m c
  | .parsed _ => [.topNotMap]

/-- The batch loop of `main` in validate_agent_task.py. -/
def runTaskBatch (files : List (Str × ParseResult)) (c : TaskContract) :
    List (Str × TViol) :=
  files.flatMap fun f => (perFileTask f.2 c).map fun v => (f.1, v)

/-- Is a parse result malformed (parse failure or non-mapping top level)? -/
def malformedDoc : ParseResult → Bool
  | .failed => true
  | .parsed (.vmap _) => false
  | .parsed _ => true

/-- The violations of validate_agent_linkage.py `main`
(lines 87-103), one constructor per category. -/
inductive LViol where
  | taskNoReport (id : Str)
  | reportNoTask (id : Str)
  | taskNotInLedger (id : Str)
  deriving DecidableEq

/-- Python `sorted` on strings: ascending lexicographic order of code
points. -/
def sortedIds (xs : List Str) : List Str := List.insertionSort (· ≤ ·) xs

/-- Python set difference `a - b` on id-sets represented as duplicate-free
lists. -/
def idDiff (a b : List Str) : List Str := a.filter fun x => !(b.contains x)

/-- The violation list computed by `main` of validate_agent_linkage.py
(lines 80-103): three set differences, each reported sorted ascending.
(The source guards each loop with `if <set>:`, which is redundant over an
empty iteration.) -/
def linkageErrors (taskIds reportIds ledgerIds : List Str) : List LViol :=
  (sortedIds (idDiff taskIds reportIds)).map .taskNoReport
  ++ (sortedIds (idDiff reportIds taskIds)).map .reportNoTask
  ++ (sortedIds (idDiff taskIds ledgerIds)).map .taskNotInLedger

/-- The exit code of validate_agent_linkage.py `main` (lines 105-112). -/
def linkageExit (taskIds reportIds ledgerIds : List Str) : Nat :=
  if (linkageErrors taskIds reportIds ledgerIds).isEmpty then 0 else 1

/-- The `TaskInfo` dataclass (github_integrator.py lines 53-59). -/
structure TaskInfo where
  task_id : Str
  title : Str
  goal : Str
  context : Str
  acceptance_criteria : List Str

/-- The `ReportInfo` dataclass (github_integrator.py lines 62-68), with the
dict-valued members kept as association lists. -/
structure ReportInfo where
  status : Str
  summary : List Str
  acceptance_criteria_results : List (List (Str × Val))
  files_modified : List (List (Str × Val))
  verification : List (Str × Val)

/-- Python `str(v)` for scalar YAML values; container values are rendered
as an abstract placeholder (no claim depends on their rendering). -/
def pyStr : Val → Str
  | .vstr s => s
  | .vnull => "None".data
  | .vbool true => "True".data
  | .vbool false => "False".data
  | .vint n => if n < 0 then '-' :: natToStr n.natAbs else natToStr n.toNat
  | .vlist _ => "[...]".data
  | .vmap _ => "\x7b...\x7d".data

/-- The elements iterated by a `for` loop over a list-shaped YAML value
(the contract-validated shape); other values yield nothing here. -/
def valItems : Val → List Val
  | .vlist xs => xs
  | _ => []

/-- `GitHubIntegrator._build_issue_body` (github_integrator.py
lines 348-389). -/
def buildIssueBody (task : TaskInfo) (report : Option ReportInfo) : Str :=
  joinNL
    (["## Goal\n".data ++ task.goal ++ ['\n'],
      "## Context\n".data ++ task.context ++ ['\n'],
      "## Acceptance Criteria".data]
     ++ task.acceptance_criteria.map (fun crit => "- [ ] ".data ++ crit)
     ++ [[]]
     ++ (match report with
         | none => []
         | some r =>
           ["## Implementation Report\n".data,
            "**Status:** ".data ++ r.status ++ ['\n']]
           ++ (if r.summary.isEmpty then []
               else "### Summary".data :: r.summary.map (fun it => "- ".data ++ it) ++ [[]])
           ++ (if r.acceptance_criteria_results.isEmpty then []
               else "### Verification Results".data ::
                 r.acceptance_criteria_results.map (fun m =>
                   (if valTruthy (pyGet m "passed".data) then "✅".data else "❌".data)
                   ++ ' ' :: pyStr ((assocGet m "criterion".data).getD (.vstr "Unknown".data)))
                 ++ [[]])
           ++ (if r.files_modified.isEmpty then []
               else "### Files Modified".data ::
                 r.files_modified.map (fun m =>
                   "- `".data ++ pyStr ((assocGet m "path".data).getD (.vstr "unknown".data))
                   ++ "` - ".data ++ pyStr ((assocGet m "description".data).getD (.vstr [])))
                 ++ [[]]))
     ++ ["---".data,
         "*This issue was automatically created by the agent system.*".data])

/-- A GitHub issue as seen through the store: number, title, body and
labels. -/
structure Issue where
  number : Nat
  title : Str
  body : Str
  labels : List Str

/-- `GitHubIntegrator._find_existing_issue` (github_integrator.py
lines 304-346): the first issue of the store whose title contains the task
id as a (case-sensitive) substring. -/
def findExistingIssue (taskId : Str) (issues : List Issue) : Option Issue :=
  issues.find? fun i => containsSub taskId i.title

/-- `GitHubIntegrator._create_or_update_issue` (github_integrator.py
lines 287-302) acting on the issue store: update the body of the found
issue (`_update_issue`), or create a new issue (`_create_issue`) with title
`[<task_id>] <title>` and the two labels.  `freshNumber` is the number the
remote assigns to a newly created issue. -/
def createOrUpdateIssue (task : TaskInfo) (report : Option ReportInfo)
    (issues : List Issue) (freshNumber : Nat) : List Issue :=
  match findExistingIssue task.task_id issues with
  | some ex =>
    issues.map fun j =>
      if j.number == ex.number then { j with body := buildIssueBody task report } else j
  | none =>
    issues ++ [{ number := freshNumber,
                 title := '[' :: task.task_id ++ ']' :: ' ' :: task.title,
                 body := buildIssueBody task report,
                 labels := ["agent-task".data, "automation".data] }]

/-- The number of issues in the store whose title contains the task id. -/
def countTitleMatch (taskId : Str) (issues : List Issue) : Nat :=
  issues.countP fun i => containsSub taskId i.title

/-- The git subprocess calls `_create_branch_and_pr` can make. -/
inductive GitCmd where
  | checkoutNew
  | checkout
  | addAll
  | commit
  | push
  | pushForce
  | prCreate
  deriving DecidableEq

/-- Outcomes of the git collaborator for one run: whether the branch
already exists, whether the working tree is dirty, whether the normal push
succeeds, and whether a forced push succeeds. -/
structure GitEnv where
  branchExists : Bool
  hasChanges : Bool
  pushOk : Bool
  forcePushOk : Bool

/-- The sequence of git calls made by `GitHubIntegrator._create_branch_and_pr`
(github_integrator.py lines 482-530): checkout, optional stage+commit, a
normal push, a forced push only on rejection (a failing forced push raises
`check=True` and ends the run before PR creation). -/
def branchPrTrace (env : GitEnv) : List GitCmd :=
  (if env.branchExists then [.checkout] else [.checkoutNew])
  ++ (if env.hasChanges then [.addAll, .commit] else [])
  ++ [.push]
  ++ (if env.pushOk then [.prCreate]
      else if env.forcePushOk then [.pushForce, .prCreate]
      else [.pushForce])

/-- `task.get("id") == task_id` of `_update_ledger` (github_integrator.py
line 748): non-mapping entries and non-string ids never match a string
task id. -/
def entryMatches (taskId : Str) : Val → Bool
  | .vmap m =>
    match assocGet m "id".data with
    | some (.vstr s) => s == taskId
    | _ => false
  | _ => false

/-- The `github` sub-object written by `_update_ledger`
(github_integrator.py lines 758-766): issue url/number, the independently
computed branch name `feature/<task_id>`, and the PR url/number only when
a PR reference was supplied. -/
def githubSub (taskId : Str) (issueUrl issueNumber : Val) (pr : Option (Val × Val)) : Val :=
  .vmap ([("issue_url".data, issueUrl),
          ("issue_number".data, issueNumber),
          ("branch".data, .vstr ("feature/".data ++ taskId))]
    ++ (match pr with
        | some (u, n) => [("pr_url".data, u), ("pr_number".data, n)]
        | none => []))

/-- The field updates `_update_ledger` performs on the matched (or fresh)
entry, in source order: `status`, `github`, `completed`
(github_integrator.py lines 756-768). -/
def applyEntryUpdates (gh : Val) (today : Str) (m : List (Str × Val)) : List (Str × Val) :=
  assocSet (assocSet (assocSet m "status".data (.vstr "completed".data))
    "github".data gh) "completed".data (.vstr today)

/-- Update the first entry matching the task id, keeping every other entry
(and the order) intact; `none` when no entry matches. -/
def updateFirstEntry (taskId : Str) (gh : Val) (today : Str) : List Val → Option (List Val)
  | [] => none
  | e :: rest =>
    if entryMatches taskId e then
      match e with
      | .vmap m => some (.vmap (applyEntryUpdates gh today m) :: rest)
      | _ => none
    else (updateFirstEntry taskId gh today rest).map (e :: ·)

/-- `ledger.get("tasks", [])` as iterated and appended to by
`_update_ledger`: a missing key defaults to `[]`; a present non-list value
makes the Python run raise (modelled as `none`). -/
def ledgerTasks (ledger : List (Str × Val)) : Option (List Val) :=
  match assocGet ledger "tasks".data with
  | some (.vlist l) => some l
  | none => some []
  | some _ => none

/-- `GitHubIntegrator._update_ledger` (github_integrator.py lines 733-774)
acting on the loaded ledger document: find the entry by id and update it in
place, or append a fresh `{id: task_id}` entry and update that; write the
updated entry list back under the `tasks` key. -/
def mergeLedger (ledger : List (Str × Val)) (taskId : Str) (issueUrl issueNumber : Val)
    (pr : Option (Val × Val)) (today : Str) : Option (List (Str × Val)) :=
  match ledgerTasks ledger with
  | none => none
  | some entries =>
    match updateFirstEntry taskId (githubSub taskId issueUrl issueNumber pr) today entries with
    | some entries2 => some (assocSet ledger "tasks".data (.vlist entries2))
    | none =>
      some (assocSet ledger "tasks".data (.vlist (entries ++
        [.vmap (applyEntryUpdates (githubSub taskId issueUrl issueNumber pr) today
          [("id".data, .vstr taskId)])])))

/-- The number of ledger entries matching a task id. -/
def countEntries (taskId : Str) (entries : List Val) : Nat :=
  entries.countP (entryMatches taskId)

/-! ## Basic lemmas about the string model -/

theorem strStarts_append {p s : Str} (t : Str) (h : strStarts p s = true) :
    strStarts p (s ++ t) = true := by
  induction p generalizing s with
  | nil => rfl
  | cons a ps ih =>
    cases s with
    | nil => simp [strStarts] at h
    | cons c cs =>
      simp only [strStarts, Bool.and_eq_true, beq_iff_eq] at h
      simp [strStarts, h.1, ih h.2]

theorem strStarts_self_append (p t : Str) : strStarts p (p ++ t) = true := by
  induction p with
  | nil => rfl
  | cons a ps ih => simp [strStarts, ih]

theorem containsSub_of_starts {p s : Str} (h : strStarts p s = true) :
    containsSub p s = true := by
  cases s with
  | nil => simpa [containsSub] using h
  | cons c cs => simp [containsSub, h]

theorem containsSub_append_right {p : Str} (a : Str) {b : Str}
    (h : containsSub p b = true) : containsSub p (a ++ b) = true := by
  induction a with
  | nil => simpa using h
  | cons c cs ih => simp [containsSub, ih]

theorem containsSub_cons_false {p : Str} {c : Char} {s : Str}
    (h : containsSub p (c :: s) = false) :
    strStarts p (c :: s) = false ∧ containsSub p s = false := by
  simpa [containsSub] using h

/-! ## C2: the branch-name generator -/

theorem beforeLastDash_length (s : Str) : (beforeLastDash s).length ≤ s.length := by
  induction s with
  | nil => simp [beforeLastDash]
  | cons c rest ih =>
    simp only [beforeLastDash]
    split
    · simpa using ih
    · split <;> simp

theorem beforeLastDash_of_no_dash {s : Str} (h : ¬ '-' ∈ s) :
    beforeLastDash s = s := by
  induction s with
  | nil => rfl
  | cons c rest ih =>
    simp only [List.mem_cons, not_or] at h
    have hr : rest.contains '-' = false := by simp [h.2]
    simp [beforeLastDash, hr, ih h.2, (by simpa [eq_comm] using h.1 : ¬ c = '-')]

theorem beforeLastDash_spec {s : Str} (h : '-' ∈ s) :
    ∃ j, beforeLastDash s = s.take j ∧ s[j]? = some '-' ∧
      ∀ k, j < k → s[k]? ≠ some '-' := by
  induction s with
  | nil => simp at h
  | cons c rest ih =>
    by_cases hr : '-' ∈ rest
    · obtain ⟨j, hbld, hget, hlast⟩ := ih hr
      have hrc : rest.contains '-' = true := by simp [hr]
      refine ⟨j + 1, ?_, ?_, ?_⟩
      · simp [beforeLastDash, hr, hbld]
      · simpa using hget
      · intro k hk
        cases k with
        | zero => omega
        | succ k' => simpa using hlast k' (by omega)
    · have hc : c = '-' := by
        rcases List.mem_cons.mp h with h1 | h2
        · exact h1.symm
        · exact absurd h2 hr
      have hrc : rest.contains '-' = false := by simp [hr]
      refine ⟨0, ?_, ?_, ?_⟩
      · simp [beforeLastDash, hc, hr]
      · simp [hc]
      · intro k hk hcon
        cases k with
        | zero => omega
        | succ k' => exact hr (List.getElem?_mem (by simpa using hcon))

/-- **C2** (amended).  For titles made of ASCII characters (the range on
which the embedding of Python's Unicode-aware `str.lower` and regex `\w`
is exact), the branch name is a pure function of `(task id, title)` by
construction.  It is (1) always at most 50 characters; (2) equal to
`feature/<task_id>-<slug>` whenever that full name fits in 50 characters;
(3) when the full name exceeds 50 characters and the task id has at most
41 characters, the result still has the task id immediately after the
`feature/` prefix and is obtained by cutting the 50-character prefix —
the string Python actually rsplits — just before the *last* hyphen of
that prefix; (4) when the 50-character prefix contains no hyphen at all,
the result is that raw prefix — a mid-word cut that can truncate the task
id itself (the behaviour the original claim ruled out). -/
theorem genBranchName_spec (tid title : Str)
    (_hascii : ∀ c ∈ title, c.toNat < 128) :
    (genBranchName tid title).length ≤ 50
    ∧ (("feature/".data ++ tid ++ '-' :: slugOf title).length ≤ 50 →
        genBranchName tid title = "feature/".data ++ tid ++ '-' :: slugOf title)
    ∧ (("feature/".data ++ tid ++ '-' :: slugOf title).length > 50 → tid.length ≤ 41 →
        (∃ rest, genBranchName tid title = "feature/".data ++ tid ++ rest)
        ∧ ∃ j, genBranchName tid title
              = (("feature/".data ++ tid ++ '-' :: slugOf title).take 50).take j
            ∧ (("feature/".data ++ tid ++ '-' :: slugOf title).take 50)[j]? = some '-'
            ∧ ∀ k, j < k →
                (("feature/".data ++ tid ++ '-' :: slugOf title).take 50)[k]? ≠ some '-')
    ∧ (("feature/".data ++ tid ++ '-' :: slugOf title).length > 50 →
        ¬ '-' ∈ ("feature/".data ++ tid ++ '-' :: slugOf title).take 50 →
        genBranchName tid title = ("feature/".data ++ tid ++ '-' :: slugOf title).take 50) := by
  have h8 : ("feature/".data).length = 8 := rfl
  refine ⟨?_, ?_, ?_, ?_⟩
  · by_cases hlen : ("feature/".data ++ tid ++ '-' :: slugOf title).length > 50
    · have h1 : genBranchName tid title =
          beforeLastDash (("feature/".data ++ tid ++ '-' :: slugOf title).take 50) := by
        unfold genBranchName; rw [if_pos hlen]
      calc (genBranchName tid title).length
          ≤ (("feature/".data ++ tid ++ '-' :: slugOf title).take 50).length := by
            rw [h1]; exact beforeLastDash_length _
        _ ≤ 50 := List.length_take_le _ _
    · have h1 : genBranchName tid title = "feature/".data ++ tid ++ '-' :: slugOf title := by
        unfold genBranchName; rw [if_neg hlen]
      rw [h1]; omega
  · intro hle
    unfold genBranchName
    rw [if_neg (by omega : ¬ ("feature/".data ++ tid ++ '-' :: slugOf title).length > 50)]
  · intro hlen htid
    have h1 : genBranchName tid title =
        beforeLastDash (("feature/".data ++ tid ++ '-' :: slugOf title).take 50) := by
      unfold genBranchName; rw [if_pos hlen]
    have hXlen : ("feature/".data ++ tid).length ≤ 49 := by
      rw [List.length_append, h8]; omega
    have hassoc : "feature/".data ++ tid ++ '-' :: slugOf title
        = ("feature/".data ++ tid) ++ '-' :: slugOf title := by
      rw [List.append_assoc]
    have htake : ("feature/".data ++ tid ++ '-' :: slugOf title).take 50
        = ("feature/".data ++ tid) ++
          '-' :: (slugOf title).take (49 - ("feature/".data ++ tid).length) := by
      rw [hassoc, List.take_append_eq_append_take,
        List.take_of_length_le (by omega),
        show 50 - ("feature/".data ++ tid).length
          = (49 - ("feature/".data ++ tid).length) + 1 by omega,
        List.take_succ_cons]
    have hmem : '-' ∈ ("feature/".data ++ tid ++ '-' :: slugOf title).take 50 := by
      rw [htake]; simp
    obtain ⟨j, hbld, hget, hlast⟩ := beforeLastDash_spec hmem
    have hjX : ("feature/".data ++ tid).length ≤ j := by
      by_contra hx
      push_neg at hx
      refine hlast ("feature/".data ++ tid).length hx ?_
      rw [htake, List.getElem?_append_right (le_refl _)]
      simp
    have hres : genBranchName tid title
        = (("feature/".data ++ tid ++ '-' :: slugOf title).take 50).take j := by
      rw [h1, hbld]
    refine ⟨⟨(('-' :: (slugOf title).take (49 - ("feature/".data ++ tid).length)).take
        (j - ("feature/".data ++ tid).length)), ?_⟩, j, hres, hget, hlast⟩
    rw [hres, htake, List.take_append_eq_append_take,
      List.take_of_length_le hjX, List.append_assoc]
  · intro hlen hnd
    have h1 : genBranchName tid title =
        beforeLastDash (("feature/".data ++ tid ++ '-' :: slugOf title).take 50) := by
      unfold genBranchName; rw [if_pos hlen]
    rw [h1, beforeLastDash_of_no_dash hnd]

/-- Witness for C2: a concrete short task id and title, where the full
name fits in 50 characters and is returned verbatim. -/
theorem genBranchName_spec_witness :
    genBranchName "T001".data "Add metrics dashboard".data
      = "feature/T001-add-metrics-dashboard".data
    ∧ ("feature/T001-add-metrics-dashboard".data).length ≤ 50 :=
  ⟨((genBranchName_spec "T001".data "Add metrics dashboard".data
      (by decide)).2.1 (by decide)).trans (by decide), by decide⟩

/-- Counterexample for C2 as stated: a 49-character task id makes the
truncation cut in the middle of the id (no hyphen boundary in the
50-character prefix), so the result does not contain the task id after the
`feature/` prefix. -/
theorem genBranchName_counterexample :
    genBranchName (List.replicate 49 'a') "hello".data
      = "feature/".data ++ List.replicate 42 'a'
    ∧ strStarts ("feature/".data ++ List.replicate 49 'a')
        (genBranchName (List.replicate 49 'a') "hello".data) = false := by
  constructor
  · decide
  · decide

/-! ## C4: repository detection -/

/-- `removeAllAux` on an empty string. -/
theorem removeAllAux_nil (pat : Str) (fuel : Nat) : removeAllAux pat fuel [] = [] := by
  cases fuel <;> rfl

theorem removeAllAux_no_occ {pat : Str} :
    ∀ (fuel : Nat) {s : Str}, containsSub pat s = false → removeAllAux pat fuel s = s := by
  intro fuel
  induction fuel with
  | zero => intro s _; rfl
  | succ f ih =>
    intro s h
    cases s with
    | nil => rfl
    | cons c rest =>
      obtain ⟨h1, h2⟩ := containsSub_cons_false h
      simp [removeAllAux, h1, ih h2]

theorem lastPartAux_no_occ {pat : Str} :
    ∀ (fuel : Nat) {s : Str}, containsSub pat s = false → lastPartAux pat fuel s = s := by
  intro fuel
  induction fuel with
  | zero => intro s _; rfl
  | succ f ih =>
    intro s h
    cases s with
    | nil => rfl
    | cons c rest =>
      obtain ⟨h1, h2⟩ := containsSub_cons_false h
      simp [lastPartAux, h1, h2]

theorem dotgit_no_boundary {c : Char} {s' : Str}
    (h1 : strStarts ".git".data (c :: s') = false) :
    strStarts ".git".data (c :: (s' ++ ".git".data)) = false := by
  by_contra hx
  rw [Bool.not_eq_false] at hx
  rcases s' with _ | ⟨d, s''⟩
  · simp [strStarts] at hx
  · rcases s'' with _ | ⟨e, s'''⟩
    · simp [strStarts] at hx
    · rcases s''' with _ | ⟨f, s4⟩
      · simp [strStarts] at hx
      · rw [List.cons_append] at hx
        simp [strStarts] at hx h1
        obtain ⟨hc, hd, he, hf⟩ := hx
        exact h1 hc hd he hf

theorem removeAllAux_dotgit_suffix :
    ∀ (fuel : Nat) (s : Str), s.length + 4 ≤ fuel → containsSub ".git".data s = false →
      removeAllAux ".git".data fuel (s ++ ".git".data) = s := by
  intro fuel
  induction fuel with
  | zero => intro s hl _; omega
  | succ f ih =>
    intro s hl h
    cases s with
    | nil =>
      simp [removeAllAux, strStarts, removeAllAux_nil]
    | cons c s' =>
      obtain ⟨h1, h2⟩ := containsSub_cons_false h
      rw [List.cons_append]
      rw [show removeAllAux ".git".data (f + 1) (c :: (s' ++ ".git".data))
            = c :: removeAllAux ".git".data f (s' ++ ".git".data) from by
          simp [removeAllAux, dotgit_no_boundary h1]]
      rw [ih s' (by simp at hl ⊢; omega) h2]

theorem containsSub_dotgit_ssh (t : Str) :
    containsSub ".git".data ("git@github.com:".data ++ t) = containsSub ".git".data t := by
  simp [containsSub, strStarts]

theorem containsSub_dotgit_https (t : Str) :
    containsSub ".git".data ("https://github.com/".data ++ t) = containsSub ".git".data t := by
  simp [containsSub, strStarts]

theorem removeAllAux_dotgit_sshP (fuel : Nat) (t : Str) :
    removeAllAux ".git".data (fuel + 15) ("git@github.com:".data ++ t)
      = "git@github.com:".data ++ removeAllAux ".git".data fuel t := by
  simp [removeAllAux, strStarts]

theorem removeAllAux_dotgit_httpsP (fuel : Nat) (t : Str) :
    removeAllAux ".git".data (fuel + 19) ("https://github.com/".data ++ t)
      = "https://github.com/".data ++ removeAllAux ".git".data fuel t := by
  simp [removeAllAux, strStarts]

theorem pyReplace_sshMarker (slug : Str) (h : containsSub "git@github.com:".data slug = false) :
    pyReplaceEmpty "git@github.com:".data ("git@github.com:".data ++ slug) = slug := by
  have hl : ("git@github.com:".data ++ slug).length = slug.length + 15 := by
    simp
  rw [pyReplaceEmpty, hl]
  simp [removeAllAux, strStarts]
  exact removeAllAux_no_occ _ h

theorem lastPartAux_httpsP (fuel : Nat) (t : Str) (h : containsSub "github.com/".data t = false) :
    lastPartAux "github.com/".data (fuel + 19) ("https://github.com/".data ++ t) = t := by
  simp [lastPartAux, strStarts, containsSub]
  exact lastPartAux_no_occ _ h

/-- **C4** (amended).  Repository resolution: a non-empty environment
override is returned unconditionally; with no override, absence of a remote
or a remote URL not containing `github.com` yields `None`; an SSH-form
(`git@github.com:owner/repo`) or HTTPS-form (`https://github.com/owner/repo`)
URL, with or without a trailing `.git`, resolves to exactly `owner/repo` —
provided `owner/repo` itself contains no occurrence of `.git` and no
occurrence of the parser's own marker (`git@github.com:` resp.
`github.com/`), because the code removes every occurrence of `.git` (not
only a trailing suffix) and splits on every occurrence of its markers. -/
theorem detectRepository_spec :
    (∀ (s : Str) (c : Char) (rem : Option Str),
      detectRepository (some (c :: s)) rem = some (c :: s))
    ∧ (∀ env : Option Str, (env = none ∨ env = some []) → detectRepository env none = none)
    ∧ (∀ url : Str, containsSub "github.com".data url = false →
        detectRepository none (some url) = none)
    ∧ (∀ slug : Str, containsSub ".git".data slug = false →
        containsSub "git@github.com:".data slug = false →
        detectRepository none (some ("git@github.com:".data ++ slug)) = some slug
        ∧ detectRepository none (some ("git@github.com:".data ++ (slug ++ ".git".data)))
            = some slug)
    ∧ (∀ slug : Str, containsSub ".git".data slug = false →
        containsSub "github.com/".data slug = false →
        detectRepository none (some ("https://github.com/".data ++ slug)) = some slug
        ∧ detectRepository none (some ("https://github.com/".data ++ (slug ++ ".git".data)))
            = some slug) := by
  have hssh : ∀ slug : Str, containsSub "git@github.com:".data slug = false →
      pyReplaceEmpty ".git".data ("git@github.com:".data ++ slug)
        = "git@github.com:".data ++ slug →
      detectRepository none (some ("git@github.com:".data ++ slug)) = some slug := by
    intro slug h2 hrm
    have hc : containsSub "github.com".data ("git@github.com:".data ++ slug) = true := by
      rw [show ("git@github.com:".data ++ slug)
          = "git@".data ++ ("github.com".data ++ ':' :: slug) from rfl]
      exact containsSub_append_right _ (containsSub_of_starts (strStarts_self_append _ _))
    show parseRemote (some ("git@github.com:".data ++ slug)) = some slug
    simp only [parseRemote]
    rw [hc, if_pos rfl, hrm, strStarts_self_append, if_pos rfl,
      pyReplace_sshMarker slug h2]
  have hhttps : ∀ slug : Str, containsSub "github.com/".data slug = false →
      pyReplaceEmpty ".git".data ("https://github.com/".data ++ slug)
        = "https://github.com/".data ++ slug →
      detectRepository none (some ("https://github.com/".data ++ slug)) = some slug := by
    intro slug h2 hrm
    have hc : containsSub "github.com".data ("https://github.com/".data ++ slug) = true := by
      rw [show ("https://github.com/".data ++ slug)
          = "https://".data ++ ("github.com".data ++ '/' :: slug) from rfl]
      exact containsSub_append_right _ (containsSub_of_starts (strStarts_self_append _ _))
    have hnotssh : strStarts "git@github.com:".data ("https://github.com/".data ++ slug)
        = false := by simp [strStarts]
    have hgh : containsSub "github.com/".data ("https://github.com/".data ++ slug) = true := by
      rw [show ("https://github.com/".data ++ slug)
          = "https://".data ++ ("github.com/".data ++ slug) from rfl]
      exact containsSub_append_right _ (containsSub_of_starts (strStarts_self_append _ _))
    have hsplit : pySplitLast "github.com/".data ("https://github.com/".data ++ slug)
        = slug := by
      rw [pySplitLast,
        show ("https://github.com/".data ++ slug).length = slug.length + 19 from by simp,
        lastPartAux_httpsP _ _ h2]
    show parseRemote (some ("https://github.com/".data ++ slug)) = some slug
    simp only [parseRemote]
    rw [hc, if_pos rfl, hrm, hnotssh, if_neg (by simp : ¬ false = true),
      hgh, if_pos rfl, hsplit]
  refine ⟨fun s c rem => rfl, ?_, ?_, ?_, ?_⟩
  · rintro env (rfl | rfl) <;> rfl
  · intro url h
    show parseRemote (some url) = none
    simp only [parseRemote]
    rw [h, if_neg (by simp : ¬ false = true)]
  · intro slug h1 h2
    refine ⟨hssh slug h2 ?_, ?_⟩
    · apply removeAllAux_no_occ
      rw [containsSub_dotgit_ssh]; exact h1
    · have hrm : pyReplaceEmpty ".git".data ("git@github.com:".data ++ (slug ++ ".git".data))
          = "git@github.com:".data ++ slug := by
        rw [pyReplaceEmpty,
          show ("git@github.com:".data ++ (slug ++ ".git".data)).length
            = (slug.length + 4) + 15 from by simp,
          removeAllAux_dotgit_sshP,
          removeAllAux_dotgit_suffix (slug.length + 4) slug (by omega) h1]
      have hc : containsSub "github.com".data
          ("git@github.com:".data ++ (slug ++ ".git".data)) = true := by
        rw [show ("git@github.com:".data ++ (slug ++ ".git".data))
            = "git@".data ++ ("github.com".data ++ ':' :: (slug ++ ".git".data)) from rfl]
        exact containsSub_append_right _ (containsSub_of_starts (strStarts_self_append _ _))
      show parseRemote (some ("git@github.com:".data ++ (slug ++ ".git".data))) = some slug
      simp only [parseRemote]
      rw [hc, if_pos rfl, hrm, strStarts_self_append, if_pos rfl,
        pyReplace_sshMarker slug h2]
  · intro slug h1 h2
    refine ⟨hhttps slug h2 ?_, ?_⟩
    · apply removeAllAux_no_occ
      rw [containsSub_dotgit_https]; exact h1
    · have hrm : pyReplaceEmpty ".git".data
          ("https://github.com/".data ++ (slug ++ ".git".data))
          = "https://github.com/".data ++ slug := by
        rw [pyReplaceEmpty,
          show ("https://github.com/".data ++ (slug ++ ".git".data)).length
            = (slug.length + 4) + 19 from by simp,
          removeAllAux_dotgit_httpsP,
          removeAllAux_dotgit_suffix (slug.length + 4) slug (by omega) h1]
      have hc : containsSub "github.com".data
          ("https://github.com/".data ++ (slug ++ ".git".data)) = true := by
        rw [show ("https://github.com/".data ++ (slug ++ ".git".data))
            = "https://".data ++ ("github.com".data ++ '/' :: (slug ++ ".git".data)) from rfl]
        exact containsSub_append_right _ (containsSub_of_starts (strStarts_self_append _ _))
      have hnotssh : strStarts "git@github.com:".data ("https://github.com/".data ++ slug)
          = false := by simp [strStarts]
      have hgh : containsSub "github.com/".data ("https://github.com/".data ++ slug)
          = true := by
        rw [show ("https://github.com/".data ++ slug)
            = "https://".data ++ ("github.com/".data ++ slug) from rfl]
        exact containsSub_append_right _ (containsSub_of_starts (strStarts_self_append _ _))
      have hsplit : pySplitLast "github.com/".data ("https://github.com/".data ++ slug)
          = slug := by
        rw [pySplitLast,
          show ("https://github.com/".data ++ slug).length = slug.length + 19 from by simp,
          lastPartAux_httpsP _ _ h2]
      show parseRemote (some ("https://github.com/".data ++ (slug ++ ".git".data))) = some slug
      simp only [parseRemote]
      rw [hc, if_pos rfl, hrm, hnotssh, if_neg (by simp : ¬ false = true),
        hgh, if_pos rfl, hsplit]

/-- Witness for C4: a well-formed SSH remote resolves to its slug, and a
non-empty environment override wins. -/
theorem detectRepository_spec_witness :
    detectRepository none (some ("git@github.com:".data ++ "owner/repo".data))
      = some "owner/repo".data
    ∧ detectRepository (some "o/r".data) none = some "o/r".data := by
  exact ⟨(detectRepository_spec.2.2.2.1 "owner/repo".data (by decide) (by decide)).1,
    detectRepository_spec.1 "/r".data 'o' none⟩

/-- Counterexample for C4 as stated: for the SSH-form remote
`git@github.com:owner/a.gitb` (no trailing `.git`), the claim requires the
unchanged slug `owner/a.gitb`, but the code removes the interior `.git`
occurrence and returns `owner/ab`. -/
theorem detectRepository_counterexample :
    detectRepository none (some "git@github.com:owner/a.gitb".data) = some "owner/ab".data
    ∧ "owner/ab".data ≠ "owner/a.gitb".data :=
  ⟨by decide, by decide⟩

/-! ## C8: the synthesized commit message -/

theorem firstLine_append_newline (l t : Str) (h : ¬ '\n' ∈ l) :
    firstLine (l ++ '\n' :: t) = l := by
  induction l with
  | nil => simp [firstLine]
  | cons c cs ih =>
    simp only [List.mem_cons, not_or] at h
    have hc : ¬ c = '\n' := fun hh => h.1 hh.symm
    simp [firstLine, hc, ih h.2]

theorem firstLine_of_no_newline {l : Str} (h : ¬ '\n' ∈ l) : firstLine l = l := by
  induction l with
  | nil => rfl
  | cons c cs ih =>
    simp only [List.mem_cons, not_or] at h
    have hc : ¬ c = '\n' := fun hh => h.1 hh.symm
    simp [firstLine, hc, ih h.2]

theorem firstLine_joinNL {l : Str} {rest : List Str} (h : ¬ '\n' ∈ l) :
    firstLine (joinNL (l :: rest)) = l := by
  cases rest with
  | nil => exact firstLine_of_no_newline h
  | cons r rs => exact firstLine_append_newline l _ h

theorem newline_not_mem_commitType (title : Str) : ¬ '\n' ∈ commitType title := by
  unfold commitType
  repeat' split
  all_goals decide

theorem newline_not_mem_commitDesc {title : Str} (h : ¬ '\n' ∈ lowerStr title) :
    ¬ '\n' ∈ commitDesc title := by
  intro hm
  exact h (List.mem_of_mem_filter (List.mem_of_mem_take hm))

theorem strStarts_joinNL {p l : Str} {rest : List Str} (h : strStarts p l = true) :
    strStarts p (joinNL (l :: rest)) = true := by
  cases rest with
  | nil => exact h
  | cons r rs => exact strStarts_append _ h

/-- **C8** (amended).  Commit-type inference is keyword-based with
precedence fix/bug, test, doc, refactor, else feat.  Provided neither the
task id nor the (lower-cased) title contains a newline, the first line of
the synthesized message is `<type>(<task_id>): <cleaned title>`; for a task
`T010` titled "Fix login bug" the message begins with `fix(T010): `, and
for "Add metrics dashboard" with `feat(T010): `.  The body contains the
goal bullet and exactly the first (at most three) acceptance criteria, and
ends with a `Closes #<n>` footer exactly when the issue reference carries a
*non-zero* number (Python truthiness makes a zero number behave like a
missing one). -/
theorem genCommitMessage_spec (tid title goal : Str) (acs : List Str) (num : Option Nat) :
    (¬ '\n' ∈ tid → ¬ '\n' ∈ lowerStr title →
      firstLine (genCommitMessage tid title goal acs num)
        = commitType title ++ '(' :: tid ++ ')' :: ':' :: ' ' :: commitDesc title)
    ∧ strStarts "fix(T010): ".data
        (genCommitMessage "T010".data "Fix login bug".data goal acs num) = true
    ∧ strStarts "feat(T010): ".data
        (genCommitMessage "T010".data "Add metrics dashboard".data goal acs num) = true
    ∧ ('-' :: ' ' :: goal) ∈ genCommitLines tid title goal acs num
    ∧ (∀ a ∈ acs.take 3, ('-' :: ' ' :: a) ∈ genCommitLines tid title goal acs num)
    ∧ (genCommitLines tid title goal acs num).length
        = 3 + min 3 acs.length + (match num with | some (_ + 1) => 2 | _ => 0)
    ∧ ((num = none ∨ num = some 0) →
        genCommitLines tid title goal acs num
          = [commitType title ++ '(' :: tid ++ ')' :: ':' :: ' ' :: commitDesc title, [],
             '-' :: ' ' :: goal] ++ (acs.take 3).map (fun crit => '-' :: ' ' :: crit))
    ∧ (∀ n, num = some (n + 1) →
        genCommitLines tid title goal acs num
          = ([commitType title ++ '(' :: tid ++ ')' :: ':' :: ' ' :: commitDesc title, [],
              '-' :: ' ' :: goal] ++ (acs.take 3).map (fun crit => '-' :: ' ' :: crit))
            ++ [[], "Closes #".data ++ natToStr (n + 1)]) := by
  refine ⟨?_, ?_, ?_, ?_, ?_, ?_, ?_, ?_⟩
  · intro h1 h2
    have hno : ¬ '\n' ∈ commitType title ++ '(' :: tid ++ ')' :: ':' :: ' ' :: commitDesc title := by
      simp only [List.mem_append, List.mem_cons, not_or]
      exact ⟨⟨newline_not_mem_commitType title, by decide, h1⟩,
        by decide, by decide, by decide, newline_not_mem_commitDesc h2⟩
    exact firstLine_joinNL hno
  · exact strStarts_joinNL (by decide)
  · exact strStarts_joinNL (by decide)
  · simp [genCommitLines]
  · intro a ha
    simp only [genCommitLines, List.mem_append, List.mem_cons]
    exact Or.inl (Or.inr (List.mem_map_of_mem _ ha))
  · rcases num with _ | n
    · simp [genCommitLines, List.length_take]
      omega
    · rcases n with _ | n <;> simp [genCommitLines, List.length_take] <;> omega
  · rintro (rfl | rfl) <;> simp [genCommitLines]
  · intro n hn
    subst hn
    simp [genCommitLines]

/-- Witness for C8: concrete first line for the "Fix login bug" task, and
the full line list with a `Closes #7` footer. -/
theorem genCommitMessage_spec_witness :
    firstLine (genCommitMessage "T010".data "Fix login bug".data "g".data [] none)
      = "fix(T010): fix login bug".data
    ∧ genCommitLines "T010".data "Fix login bug".data "g".data [] (some 7)
      = ["fix(T010): fix login bug".data, ([] : Str), "- g".data, ([] : Str),
         "Closes #7".data] := by
  constructor
  · exact ((genCommitMessage_spec "T010".data "Fix login bug".data "g".data [] none).1
      (by decide) (by decide)).trans (by decide)
  · exact ((genCommitMessage_spec "T010".data "Fix login bug".data "g".data []
      (some 7)).2.2.2.2.2.2.2 6 rfl).trans (by decide)

/-- Counterexample for C8 as stated: with an issue reference whose number
is `0` the footer is omitted although a number exists, and a title
containing a newline breaks the claimed first-line equation. -/
theorem genCommitMessage_counterexample :
    containsSub "Closes".data
      (genCommitMessage "T010".data "Fix login bug".data "g".data [] (some 0)) = false
    ∧ firstLine (genCommitMessage "T010".data "A\nB".data "g".data [] none)
      ≠ commitType "A\nB".data ++ '(' :: "T010".data ++ ')' :: ':' :: ' '
          :: commitDesc "A\nB".data := by
  constructor
  · decide
  · decide

/-! ## C5: the status-enum check of the report validator -/

theorem any_statusViol_vrRequired (doc : List (Str × Val)) (c : ReportContract) :
    (vrRequiredBlock doc c).any isStatusViol = false := by
  rw [vrRequiredBlock, List.any_eq_false]
  intro v hv
  obtain ⟨k, -, rfl⟩ := List.mem_map.mp hv
  simp [isStatusViol]

theorem any_statusViol_vrSummary (doc : List (Str × Val)) (c : ReportContract) :
    (vrSummaryBlock doc c).any isStatusViol = false := by
  unfold vrSummaryBlock
  split
  · split <;> simp [isStatusViol]
  · simp [isStatusViol]

theorem any_statusViol_vrAcr (doc : List (Str × Val)) (c : ReportContract) :
    (vrAcrBlock doc c).any isStatusViol = false := by
  unfold vrAcrBlock
  split
  · rw [List.any_flatMap, List.any_eq_false]
    intro p _
    rw [Bool.not_eq_true]
    split
    · rw [List.any_append]
      simp only [Bool.or_eq_false_iff]
      refine ⟨?_, ?_⟩
      · rw [List.any_eq_false]
        intro v hv
        obtain ⟨k, -, rfl⟩ := List.mem_map.mp hv
        simp [isStatusViol]
      · split <;> simp [isStatusViol]
    · simp [isStatusViol]
  · simp [isStatusViol]

theorem any_statusViol_vrFiles (doc : List (Str × Val)) :
    (vrFilesBlock doc).any isStatusViol = false := by
  unfold vrFilesBlock
  split
  · rw [List.any_flatMap, List.any_eq_false]
    intro p _
    rw [Bool.not_eq_true]
    split
    · split <;> simp [isStatusViol]
    · simp [isStatusViol]
  · simp [isStatusViol]

theorem any_statusViol_vrVerif (doc : List (Str × Val)) (c : ReportContract) :
    (vrVerifBlock doc c).any isStatusViol = false := by
  unfold vrVerifBlock
  split
  · rw [List.any_append, List.any_append]
    simp only [Bool.or_eq_false_iff]
    refine ⟨⟨?_, ?_⟩, ?_⟩
    · rw [List.any_eq_false]
      intro v hv
      obtain ⟨k, -, rfl⟩ := List.mem_map.mp hv
      simp [isStatusViol]
    · split <;> simp [isStatusViol]
    · split <;> simp [isStatusViol]
  · simp [isStatusViol]

theorem any_statusViol_vrExtra (doc : List (Str × Val)) :
    (vrExtraBlock doc).any isStatusViol = false := by
  unfold vrExtraBlock
  rw [List.any_flatMap, List.any_eq_false]
  intro p _
  rw [Bool.not_eq_true]
  split
  · split <;> simp [isStatusViol]
  · simp

/-- The report validator emits a status-enum violation exactly when the
Python value of `report.get("status")` is not in the enum. -/
theorem hasStatusViol_validateReport (doc : List (Str × Val)) (c : ReportContract) :
    hasStatusViol (validateReport doc c)
      = !(valMem (pyGet doc "status".data) c.enumsStatus) := by
  unfold hasStatusViol validateReport
  simp only [List.any_append, any_statusViol_vrRequired, any_statusViol_vrSummary,
    any_statusViol_vrAcr, any_statusViol_vrFiles, any_statusViol_vrVerif,
    any_statusViol_vrExtra, Bool.false_or, Bool.or_false]
  unfold vrStatusBlock
  split
  · rename_i hmem
    simp [hmem]
  · rename_i hmem
    simp only [Bool.not_eq_true] at hmem
    simp [isStatusViol, hmem]

/-- **C5** (amended).  For every report document and every contract whose
status enum is non-empty *and does not list null as an allowed status*, the
validator emits a status-enum violation iff the status field is present
with a value outside the enum, or is absent.  (The code compares
`report.get("status")` — which is `None` for an absent field — against the
enum, so an enum that contains null accepts an absent status.) -/
theorem validateReport_statusEnum_spec (doc : List (Str × Val)) (c : ReportContract)
    (_hne : c.enumsStatus ≠ [])
    (hnull : valMem .vnull c.enumsStatus = false) :
    hasStatusViol (validateReport doc c) = true ↔
      ((∃ v, assocGet doc "status".data = some v ∧ valMem v c.enumsStatus = false)
        ∨ assocGet doc "status".data = none) := by
  rw [hasStatusViol_validateReport]
  cases hg : assocGet doc "status".data with
  | none => simp [pyGet, hg, hnull]
  | some v => simp [pyGet, hg]

/-- Witness for C5: a present out-of-enum status triggers the violation,
for a contract with the non-empty enum `["completed"]`. -/
theorem validateReport_statusEnum_witness :
    hasStatusViol (validateReport [("status".data, Val.vstr "bogus".data)]
      ⟨[], [Val.vstr "completed".data], none, [], []⟩) = true :=
  (validateReport_statusEnum_spec [("status".data, Val.vstr "bogus".data)]
    ⟨[], [Val.vstr "completed".data], none, [], []⟩
    (List.cons_ne_nil _ _) rfl).mpr
    (Or.inl ⟨Val.vstr "bogus".data, rfl, rfl⟩)

/-- Counterexample for C5 as stated: with the non-empty enum `[null]` and
an absent status field, the claim requires a status-enum violation, but
`None in [None]` holds in Python and the validator emits none. -/
theorem validateReport_statusEnum_counterexample :
    hasStatusViol (validateReport ([] : List (Str × Val))
      ⟨[], [Val.vnull], none, [], []⟩) = false
    ∧ ([Val.vnull] : List Val) ≠ []
    ∧ assocGet ([] : List (Str × Val)) "status".data = none :=
  ⟨rfl, by simp, rfl⟩

/-! ## C6: batch validation never aborts -/

/-- **C6**.  Validation is modelled by total Lean functions (`validateTask`
and `validateReport` always return a violation list; the Python code never
raises for a mapping document and a well-formed contract, modelled here by
the typed `ReportContract`/`TaskContract`).  In batch mode a document that
fails to parse, or whose top level is not a mapping, contributes exactly
one violation; and the batch run over any file list decomposes per file,
so a malformed document never aborts the scan — every later file is still
processed. -/
theorem validationBatch_spec :
    (∀ (r : ParseResult) (c : ReportContract), malformedDoc r = true →
      (perFileReport r c).length = 1)
    ∧ (∀ (r : ParseResult) (c : TaskContract), malformedDoc r = true →
      (perFileTask r c).length = 1)
    ∧ (∀ (files1 files2 : List (Str × ParseResult)) (p : Str) (r : ParseResult)
        (c : ReportContract),
        runReportBatch (files1 ++ (p, r) :: files2) c
          = runReportBatch files1 c ++ (perFileReport r c).map (fun v => (p, v))
            ++ runReportBatch files2 c)
    ∧ (∀ (files1 files2 : List (Str × ParseResult)) (p : Str) (r : ParseResult)
        (c : TaskContract),
        runTaskBatch (files1 ++ (p, r) :: files2) c
          = runTaskBatch files1 c ++ (perFileTask r c).map (fun v => (p, v))
            ++ runTaskBatch files2 c) := by
  refine ⟨?_, ?_, ?_, ?_⟩
  · intro r c h
    cases r with
    | failed => rfl
    | parsed v => cases v <;> first | rfl | simp [malformedDoc] at h
  · intro r c h
    cases r with
    | failed => rfl
    | parsed v => cases v <;> first | rfl | simp [malformedDoc] at h
  · intro files1 files2 p r c
    simp [runReportBatch]
  · intro files1 files2 p r c
    simp [runTaskBatch]

/-- Witness for C6: a parse failure is exactly one violation, and the
batch over a concrete two-file list (one malformed, one non-mapping)
decomposes and processes both. -/
theorem validationBatch_spec_witness :
    (perFileReport .failed ⟨[], [], none, [], []⟩).length = 1
    ∧ runReportBatch ([] ++ ("a".data, ParseResult.failed)
          :: [("b".data, ParseResult.parsed (Val.vstr "x".data))]) ⟨[], [], none, [], []⟩
      = runReportBatch [] ⟨[], [], none, [], []⟩
        ++ (perFileReport ParseResult.failed ⟨[], [], none, [], []⟩).map
            (fun v => ("a".data, v))
        ++ runReportBatch [("b".data, ParseResult.parsed (Val.vstr "x".data))]
            ⟨[], [], none, [], []⟩ :=
  ⟨validationBatch_spec.1 .failed ⟨[], [], none, [], []⟩ rfl,
   validationBatch_spec.2.2.1 [] [("b".data, ParseResult.parsed (Val.vstr "x".data))]
     "a".data .failed ⟨[], [], none, [], []⟩⟩

/-! ## C7: the linkage validator -/

theorem sortedIds_sorted (xs : List Str) : List.Sorted (· ≤ ·) (sortedIds xs) :=
  List.sorted_insertionSort _ xs

theorem sortedIds_length (xs : List Str) : (sortedIds xs).length = xs.length :=
  (List.perm_insertionSort _ xs).length_eq

theorem sortedIds_nodup {xs : List Str} (h : xs.Nodup) : (sortedIds xs).Nodup :=
  ((List.perm_insertionSort _ xs).nodup_iff).mpr h

theorem idDiff_nodup {a : List Str} (b : List Str) (h : a.Nodup) : (idDiff a b).Nodup :=
  h.filter _

example : linkageErrors ["A".data, "B".data] ["B".data, "C".data] ["B".data]
    = [.taskNoReport "A".data, .reportNoTask "C".data, .taskNotInLedger "A".data] := by
  decide

/-- **C7**.  Linkage validation computes exactly the three set
differences (tasks minus reports, reports minus tasks, tasks minus ledger),
reports one violation per id (for duplicate-free id sets), sorted ascending
within each category, and exits 0 iff all three differences are empty; on
the concrete sets from the claim it reports exactly the three expected
violations and none about B. -/
theorem linkage_spec (t r l : List Str) :
    (linkageExit t r l = 0 ↔
      idDiff t r = [] ∧ idDiff r t = [] ∧ idDiff t l = [])
    ∧ ((linkageErrors t r l).length
        = (idDiff t r).length + (idDiff r t).length + (idDiff t l).length)
    ∧ List.Sorted (· ≤ ·) (sortedIds (idDiff t r))
    ∧ List.Sorted (· ≤ ·) (sortedIds (idDiff r t))
    ∧ List.Sorted (· ≤ ·) (sortedIds (idDiff t l))
    ∧ (t.Nodup → (sortedIds (idDiff t r)).Nodup ∧ (sortedIds (idDiff t l)).Nodup)
    ∧ (r.Nodup → (sortedIds (idDiff r t)).Nodup)
    ∧ linkageErrors ["A".data, "B".data] ["B".data, "C".data] ["B".data]
        = [.taskNoReport "A".data, .reportNoTask "C".data, .taskNotInLedger "A".data] := by
  have hlen : (linkageErrors t r l).length
      = (idDiff t r).length + (idDiff r t).length + (idDiff t l).length := by
    simp [linkageErrors, sortedIds_length]
    omega
  refine ⟨?_, hlen, sortedIds_sorted _, sortedIds_sorted _, sortedIds_sorted _,
    fun h => ⟨sortedIds_nodup (idDiff_nodup r h), sortedIds_nodup (idDiff_nodup l h)⟩,
    fun h => sortedIds_nodup (idDiff_nodup t h), by decide⟩
  have hiff : (linkageErrors t r l).length = 0 ↔
      (idDiff t r = [] ∧ idDiff r t = [] ∧ idDiff t l = []) := by
    rw [hlen]
    simp [Nat.add_eq_zero, List.length_eq_zero, and_assoc]
  rw [linkageExit]
  split
  · rename_i he
    simp only [List.isEmpty_iff] at he
    simp only [true_iff]
    exact hiff.mp (by simp [he])
  · rename_i he
    simp only [List.isEmpty_iff] at he
    constructor
    · intro h01
      exact absurd h01 (by omega)
    · intro hd
      exact absurd (List.length_eq_zero.mp (hiff.mpr hd)) he

/-- Witness for C7: agreeing id-sets exit 0, and the no-duplicates
conclusion holds for a concrete duplicate-free input. -/
theorem linkage_spec_witness :
    linkageExit ["A".data, "B".data] ["A".data, "B".data] ["A".data, "B".data] = 0
    ∧ (sortedIds (idDiff ["A".data, "B".data] ["A".data, "B".data])).Nodup :=
  ⟨(linkage_spec ["A".data, "B".data] ["A".data, "B".data] ["A".data, "B".data]).1.mpr
      ⟨by decide, by decide, by decide⟩,
   ((linkage_spec ["A".data, "B".data] ["A".data, "B".data]
      ["A".data, "B".data]).2.2.2.2.2.1 (by decide)).1⟩

/-! ## C9: the push-then-force-push fallback -/

/-- **C9**.  For every outcome of the git collaborator, the pipeline of
`_create_branch_and_pr` performs exactly one normal push; a forced push
occurs exactly when the normal push is rejected, never more than once, and
only after the normal push (dropping the prefix before the normal push
keeps every forced push). -/
theorem branchPrTrace_spec (env : GitEnv) :
    (branchPrTrace env).count GitCmd.push = 1
    ∧ (branchPrTrace env).count GitCmd.pushForce = (if env.pushOk then 0 else 1)
    ∧ (branchPrTrace env).count GitCmd.pushForce ≤ 1
    ∧ ((branchPrTrace env).dropWhile (fun e => e != GitCmd.push)).count GitCmd.pushForce
        = (branchPrTrace env).count GitCmd.pushForce := by
  obtain ⟨b1, b2, b3, b4⟩ := env
  cases b1 <;> cases b2 <;> cases b3 <;> cases b4 <;> exact ⟨by decide, by decide, by decide, by decide⟩

/-! ## C1: issue reconciliation -/

theorem countP_congr_local {α : Type} (p q : α → Bool) (l : List α)
    (h : ∀ x ∈ l, p x = q x) : l.countP p = l.countP q := by
  induction l with
  | nil => rfl
  | cons a as ih =>
    rw [List.countP_cons, List.countP_cons, h a (by simp),
      ih (fun x hx => h x (by simp [hx]))]

theorem containsSub_new_issue_title (taskId rest : Str) :
    containsSub taskId ('[' :: (taskId ++ rest)) = true := by
  simp [containsSub, containsSub_of_starts (strStarts_self_append taskId rest)]

theorem countTitleMatch_createOrUpdate (task : TaskInfo) (report : Option ReportInfo)
    (store : List Issue) (n : Nat) :
    countTitleMatch task.task_id (createOrUpdateIssue task report store n)
      = if countTitleMatch task.task_id store = 0 then 1
        else countTitleMatch task.task_id store := by
  unfold createOrUpdateIssue findExistingIssue
  cases hfind : store.find? (fun i => containsSub task.task_id i.title) with
  | none =>
    have h0 : countTitleMatch task.task_id store = 0 := by
      rw [countTitleMatch, List.countP_eq_zero]
      intro i hi
      simpa using List.find?_eq_none.mp hfind i hi
    rw [if_pos h0]
    rw [countTitleMatch] at h0 ⊢
    rw [List.countP_append, h0, List.countP_cons, List.countP_nil]
    simp [containsSub_new_issue_title]
  | some ex =>
    have hpos : countTitleMatch task.task_id store ≠ 0 := by
      rw [countTitleMatch]
      have hpex : (fun i => containsSub task.task_id i.title) ex = true :=
        @List.find?_some _ (fun i => containsSub task.task_id i.title) ex store hfind
      have : 0 < store.countP (fun i => containsSub task.task_id i.title) :=
        List.countP_pos_iff.mpr ⟨ex, List.mem_of_find?_eq_some hfind, hpex⟩
      omega
    rw [if_neg hpos]
    rw [countTitleMatch, countTitleMatch, List.countP_map]
    apply countP_congr_local
    intro j _
    by_cases hj : (j.number == ex.number) = true <;> simp [Function.comp, hj]

theorem findExistingIssue_eq_none_iff (taskId : Str) (store : List Issue) :
    findExistingIssue taskId store = none ↔ countTitleMatch taskId store = 0 := by
  rw [findExistingIssue, List.find?_eq_none, countTitleMatch, List.countP_eq_zero]

theorem createOrUpdateIssue_length (task : TaskInfo) (report : Option ReportInfo)
    (store : List Issue) (m : Nat) :
    store.length ≤ (createOrUpdateIssue task report store m).length
    ∧ (createOrUpdateIssue task report store m).length ≤ store.length + 1 := by
  unfold createOrUpdateIssue
  cases hf : findExistingIssue task.task_id store <;> simp

theorem createOrUpdateIssue_found (task : TaskInfo) (report : Option ReportInfo)
    (store : List Issue) (m : Nat) (ex : Issue)
    (hf : findExistingIssue task.task_id store = some ex) :
    createOrUpdateIssue task report store m
      = store.map (fun j =>
          if j.number == ex.number then { j with body := buildIssueBody task report }
          else j) := by
  unfold createOrUpdateIssue
  rw [hf]

theorem createOrUpdateIssue_notFound (task : TaskInfo) (report : Option ReportInfo)
    (store : List Issue) (m : Nat)
    (hf : findExistingIssue task.task_id store = none) :
    createOrUpdateIssue task report store m
      = store ++ [Issue.mk m ('[' :: task.task_id ++ ']' :: ' ' :: task.title)
          (buildIssueBody task report) ["agent-task".data, "automation".data]] := by
  unfold createOrUpdateIssue
  rw [hf]

/-- **C1**.  For every issue store: when some issue's title contains the
task id, reconciliation keeps the store's length, every title, number and
label list unchanged, and (for stores with unique issue numbers, as GitHub
guarantees) rewrites only the found issue's body; when no title matches, it
appends exactly one new issue titled `[<task_id>] <title>` with the two
labels `agent-task` and `automation`.  Consequently two runs add at most
one issue in total, and a store with at most one matching issue still has
at most one after running twice. -/
theorem createOrUpdateIssue_spec (task : TaskInfo) (report : Option ReportInfo)
    (issues : List Issue) (n n2 : Nat) :
    (∀ ex, findExistingIssue task.task_id issues = some ex →
      (createOrUpdateIssue task report issues n).length = issues.length
      ∧ (createOrUpdateIssue task report issues n).map Issue.title = issues.map Issue.title
      ∧ (∀ (k : Nat) (j : Issue), issues[k]? = some j →
          ∃ j2 : Issue, (createOrUpdateIssue task report issues n)[k]? = some j2
            ∧ j2.title = j.title ∧ j2.number = j.number ∧ j2.labels = j.labels)
      ∧ ((issues.map Issue.number).Nodup →
          ∃ i : Nat, issues[i]? = some ex
            ∧ (createOrUpdateIssue task report issues n)[i]?
                = some { ex with body := buildIssueBody task report }
            ∧ ∀ k : Nat, k ≠ i →
                (createOrUpdateIssue task report issues n)[k]? = issues[k]?))
    ∧ (findExistingIssue task.task_id issues = none →
        createOrUpdateIssue task report issues n
          = issues ++ [Issue.mk n ('[' :: task.task_id ++ ']' :: ' ' :: task.title)
              (buildIssueBody task report) ["agent-task".data, "automation".data]])
    ∧ (findExistingIssue task.task_id issues = none ↔
        countTitleMatch task.task_id issues = 0)
    ∧ (createOrUpdateIssue task report (createOrUpdateIssue task report issues n) n2).length
        ≤ issues.length + 1
    ∧ (countTitleMatch task.task_id issues ≤ 1 →
        countTitleMatch task.task_id
          (createOrUpdateIssue task report (createOrUpdateIssue task report issues n) n2)
          ≤ 1) := by
  refine ⟨?_, createOrUpdateIssue_notFound task report issues n,
    findExistingIssue_eq_none_iff _ _, ?_, ?_⟩
  · intro ex hfind
    have hform := createOrUpdateIssue_found task report issues n ex hfind
    refine ⟨by rw [hform, List.length_map], ?_, ?_, ?_⟩
    · rw [hform, List.map_map]
      apply List.map_congr_left
      intro j _
      by_cases hj : (j.number == ex.number) = true <;> simp [Function.comp, hj]
    · intro k j hk
      rw [hform, List.getElem?_map, hk]
      by_cases hj : (j.number == ex.number) = true <;>
        exact ⟨_, rfl, by simp [hj]⟩
    · intro hnd
      obtain ⟨i, hi⟩ := List.getElem_of_mem (List.mem_of_find?_eq_some hfind)
      obtain ⟨hilen, higet⟩ := hi
      have higet? : issues[i]? = some ex := by
        rw [List.getElem?_eq_getElem hilen]
        exact congrArg some higet
      refine ⟨i, higet?, ?_, ?_⟩
      · rw [hform, List.getElem?_map, higet?]
        simp
      · intro k hk
        rw [hform, List.getElem?_map]
        cases hjk : issues[k]? with
        | none => rfl
        | some jk =>
          have hne : (jk.number == ex.number) = false := by
            rw [beq_eq_false_iff_ne]
            intro heqn
            apply hk
            have h1 : (issues.map Issue.number)[k]? = some ex.number := by
              rw [List.getElem?_map, hjk]
              exact congrArg _ heqn
            have h2 : (issues.map Issue.number)[i]? = some ex.number := by
              rw [List.getElem?_map, higet?]
              rfl
            obtain ⟨hk1, hk2⟩ := List.getElem?_eq_some_iff.mp h1
            obtain ⟨hi1, hi2⟩ := List.getElem?_eq_some_iff.mp h2
            exact hnd.getElem_inj_iff.mp (hk2.trans hi2.symm)
          exact congrArg some (if_neg (by simp [hne]))
  · have hc1 : countTitleMatch task.task_id (createOrUpdateIssue task report issues n)
        ≠ 0 := by
      rw [countTitleMatch_createOrUpdate]
      split
      · omega
      · rename_i h0
        exact h0
    cases hf2 : findExistingIssue task.task_id (createOrUpdateIssue task report issues n) with
    | none => exact absurd ((findExistingIssue_eq_none_iff _ _).mp hf2) hc1
    | some ex2 =>
      rw [createOrUpdateIssue_found task report _ n2 ex2 hf2, List.length_map]
      exact (createOrUpdateIssue_length task report issues n).2
  · intro hle
    rw [countTitleMatch_createOrUpdate, countTitleMatch_createOrUpdate]
    by_cases hc : countTitleMatch task.task_id issues = 0
    · simp [hc]
    · simp [hc]
      omega

/-- Witness for C1: on the empty store a new issue is created, and running
twice from the empty store leaves at most one issue for the task id. -/
theorem createOrUpdateIssue_spec_witness :
    createOrUpdateIssue ⟨"T001".data, "X".data, "g".data, "c".data, []⟩ none [] 7
      = [] ++ [Issue.mk 7 ('[' :: "T001".data ++ ']' :: ' ' :: "X".data)
          (buildIssueBody ⟨"T001".data, "X".data, "g".data, "c".data, []⟩ none)
          ["agent-task".data, "automation".data]]
    ∧ countTitleMatch "T001".data
        (createOrUpdateIssue ⟨"T001".data, "X".data, "g".data, "c".data, []⟩ none
          (createOrUpdateIssue ⟨"T001".data, "X".data, "g".data, "c".data, []⟩ none [] 7) 9)
        ≤ 1 :=
  ⟨(createOrUpdateIssue_spec ⟨"T001".data, "X".data, "g".data, "c".data, []⟩
      none [] 7 9).2.1 rfl,
   (createOrUpdateIssue_spec ⟨"T001".data, "X".data, "g".data, "c".data, []⟩
      none [] 7 9).2.2.2.2 (by decide)⟩

/-! ## C3 and C10: the ledger merge -/

theorem assocGet_assocSet_same (m : List (Str × Val)) (k : Str) (v : Val) :
    assocGet (assocSet m k v) k = some v := by
  induction m with
  | nil => simp [assocSet, assocGet]
  | cons p rest ih =>
    obtain ⟨k', w⟩ := p
    by_cases hk : k' = k
    · simp [assocSet, assocGet, hk]
    · have hk2 : (k' == k) = false := beq_eq_false_iff_ne.mpr hk
      simp [assocSet, assocGet, hk2, ih]

theorem assocGet_assocSet_ne (m : List (Str × Val)) (k k2 : Str) (v : Val)
    (h : k2 ≠ k) : assocGet (assocSet m k v) k2 = assocGet m k2 := by
  have h2 : (k == k2) = false := beq_eq_false_iff_ne.mpr (Ne.symm h)
  induction m with
  | nil => simp [assocSet, assocGet, h2]
  | cons p rest ih =>
    obtain ⟨k', w⟩ := p
    by_cases hk : k' = k
    · subst hk
      simp [assocSet, assocGet, h2]
    · have hk2 : (k' == k) = false := beq_eq_false_iff_ne.mpr hk
      by_cases hk3 : k' = k2
      · subst hk3
        simp [assocSet, assocGet, hk2]
      · have hk4 : (k' == k2) = false := beq_eq_false_iff_ne.mpr hk3
        simp [assocSet, assocGet, hk2, hk4, ih]

theorem applyEntryUpdates_status (gh : Val) (today : Str) (m : List (Str × Val)) :
    assocGet (applyEntryUpdates gh today m) "status".data
      = some (.vstr "completed".data) := by
  rw [applyEntryUpdates, assocGet_assocSet_ne _ _ _ _ (by decide),
    assocGet_assocSet_ne _ _ _ _ (by decide), assocGet_assocSet_same]

theorem applyEntryUpdates_github (gh : Val) (today : Str) (m : List (Str × Val)) :
    assocGet (applyEntryUpdates gh today m) "github".data = some gh := by
  rw [applyEntryUpdates, assocGet_assocSet_ne _ _ _ _ (by decide),
    assocGet_assocSet_same]

theorem applyEntryUpdates_completed (gh : Val) (today : Str) (m : List (Str × Val)) :
    assocGet (applyEntryUpdates gh today m) "completed".data = some (.vstr today) := by
  rw [applyEntryUpdates, assocGet_assocSet_same]

theorem applyEntryUpdates_frame (gh : Val) (today : Str) (m : List (Str × Val))
    (k : Str) (h1 : k ≠ "status".data) (h2 : k ≠ "github".data)
    (h3 : k ≠ "completed".data) :
    assocGet (applyEntryUpdates gh today m) k = assocGet m k := by
  rw [applyEntryUpdates, assocGet_assocSet_ne _ _ _ _ h3,
    assocGet_assocSet_ne _ _ _ _ h2, assocGet_assocSet_ne _ _ _ _ h1]

theorem entryMatches_applyEntryUpdates (taskId : Str) (gh : Val) (today : Str)
    (m : List (Str × Val)) :
    entryMatches taskId (.vmap (applyEntryUpdates gh today m))
      = entryMatches taskId (.vmap m) := by
  simp only [entryMatches]
  rw [applyEntryUpdates_frame _ _ _ _ (by decide) (by decide) (by decide)]

theorem entryMatches_vmap_of_true {taskId : Str} {e : Val}
    (h : entryMatches taskId e = true) : ∃ m, e = Val.vmap m := by
  cases e <;> first | exact ⟨_, rfl⟩ | simp [entryMatches] at h

theorem updateFirstEntry_none_iff (taskId : Str) (gh : Val) (today : Str)
    (es : List Val) :
    updateFirstEntry taskId gh today es = none
      ↔ ∀ e ∈ es, entryMatches taskId e = false := by
  induction es with
  | nil => simp [updateFirstEntry]
  | cons e rest ih =>
    by_cases he : entryMatches taskId e = true
    · obtain ⟨m, rfl⟩ := entryMatches_vmap_of_true he
      simp [updateFirstEntry, he]
    · have he2 : entryMatches taskId e = false := by
        rwa [Bool.not_eq_true] at he
      simp [updateFirstEntry, he2, ih]

theorem updateFirstEntry_some (taskId : Str) (gh : Val) (today : Str) :
    ∀ (es es' : List Val), updateFirstEntry taskId gh today es = some es' →
      ∃ es1 m es2, es = es1 ++ Val.vmap m :: es2
        ∧ (∀ e ∈ es1, entryMatches taskId e = false)
        ∧ entryMatches taskId (Val.vmap m) = true
        ∧ es' = es1 ++ Val.vmap (applyEntryUpdates gh today m) :: es2 := by
  intro es
  induction es with
  | nil => intro es' h; simp [updateFirstEntry] at h
  | cons e rest ih =>
    intro es' h
    by_cases he : entryMatches taskId e = true
    · obtain ⟨m, rfl⟩ := entryMatches_vmap_of_true he
      simp only [updateFirstEntry, he, if_true] at h
      obtain rfl : Val.vmap (applyEntryUpdates gh today m) :: rest = es' := by
        simpa using h
      exact ⟨[], m, rest, by simp, by simp, he, by simp⟩
    · have he2 : entryMatches taskId e = false := by rwa [Bool.not_eq_true] at he
      simp only [updateFirstEntry, he2, Bool.false_eq_true, if_false,
        Option.map_eq_some'] at h
      obtain ⟨es'', hu, rfl⟩ := h
      obtain ⟨es1, m, es2, heq, hall, hm, hres⟩ := ih es'' hu
      refine ⟨e :: es1, m, es2, by simp [heq], ?_, hm, by simp [hres]⟩
      intro x hx
      rcases List.mem_cons.mp hx with rfl | hx2
      · exact he2
      · exact hall x hx2

theorem ledgerTasks_assocSet (ledger : List (Str × Val)) (es : List Val) :
    ledgerTasks (assocSet ledger "tasks".data (.vlist es)) = some es := by
  rw [ledgerTasks, assocGet_assocSet_same]

theorem mergeLedger_single (ledger : List (Str × Val)) (taskId : Str) (iu inum : Val)
    (pr : Option (Val × Val)) (today : Str) (es : List Val)
    (hwf : ledgerTasks ledger = some es) :
    ∃ es', mergeLedger ledger taskId iu inum pr today
        = some (assocSet ledger "tasks".data (.vlist es'))
      ∧ countEntries taskId es' = max (countEntries taskId es) 1
      ∧ ∃ (i : Nat) (m' : List (Str × Val)), es'[i]? = some (.vmap m')
          ∧ assocGet m' "status".data = some (.vstr "completed".data)
          ∧ assocGet m' "github".data = some (githubSub taskId iu inum pr)
          ∧ assocGet m' "completed".data = some (.vstr today)
          ∧ entryMatches taskId (.vmap m') = true := by
  have hstep : mergeLedger ledger taskId iu inum pr today
      = (match updateFirstEntry taskId (githubSub taskId iu inum pr) today es with
         | some entries2 => some (assocSet ledger "tasks".data (.vlist entries2))
         | none => some (assocSet ledger "tasks".data (.vlist (es ++
             [.vmap (applyEntryUpdates (githubSub taskId iu inum pr) today
               [("id".data, .vstr taskId)])])))) := by
    unfold mergeLedger
    rw [hwf]
  cases hu : updateFirstEntry taskId (githubSub taskId iu inum pr) today es with
  | none =>
    rw [hu] at hstep
    have hall := (updateFirstEntry_none_iff _ _ _ _).mp hu
    have hc0 : List.countP (entryMatches taskId) es = 0 := by
      rw [List.countP_eq_zero]
      intro e he
      simp [hall e he]
    have hnew : entryMatches taskId (.vmap (applyEntryUpdates
        (githubSub taskId iu inum pr) today [("id".data, .vstr taskId)])) = true := by
      rw [entryMatches_applyEntryUpdates]
      simp [entryMatches, assocGet]
    refine ⟨es ++ [.vmap (applyEntryUpdates (githubSub taskId iu inum pr) today
      [("id".data, .vstr taskId)])], hstep, ?_, ?_⟩
    · rw [countEntries, countEntries, List.countP_append, hc0]
      simp [hnew]
    · refine ⟨es.length, _, ?_, applyEntryUpdates_status _ _ _,
        applyEntryUpdates_github _ _ _, applyEntryUpdates_completed _ _ _, hnew⟩
      rw [List.getElem?_append_right (le_refl _)]
      simp
  | some es2 =>
    rw [hu] at hstep
    obtain ⟨es1, m, es2', heq, hall, hm, hres⟩ :=
      updateFirstEntry_some _ _ _ es es2 hu
    have hup : entryMatches taskId (.vmap (applyEntryUpdates
        (githubSub taskId iu inum pr) today m)) = true := by
      rw [entryMatches_applyEntryUpdates]
      exact hm
    refine ⟨es2, hstep, ?_, ?_⟩
    · subst heq
      subst hres
      rw [countEntries, countEntries, List.countP_append, List.countP_append,
        List.countP_cons, List.countP_cons, hm, hup]
      simp only [eq_self_iff_true, if_true]
      omega
    · subst hres
      refine ⟨es1.length, _, ?_, applyEntryUpdates_status _ _ _,
        applyEntryUpdates_github _ _ _, applyEntryUpdates_completed _ _ _, hup⟩
      rw [List.getElem?_append_right (le_refl _)]
      simp

theorem first_match_decomp_unique (tid : Str) :
    ∀ (es1 es1b : List Val) (m mb : List (Str × Val)) (es2 es2b : List Val),
      es1 ++ Val.vmap m :: es2 = es1b ++ Val.vmap mb :: es2b →
      (∀ e ∈ es1, entryMatches tid e = false) →
      (∀ e ∈ es1b, entryMatches tid e = false) →
      entryMatches tid (Val.vmap m) = true →
      entryMatches tid (Val.vmap mb) = true →
      es1 = es1b ∧ m = mb ∧ es2 = es2b := by
  intro es1
  induction es1 with
  | nil =>
    intro es1b m mb es2 es2b heq h1 h2 hm hmb
    cases es1b with
    | nil =>
      simp only [List.nil_append] at heq
      injection heq with hhead htail
      injection hhead with hmmb
      exact ⟨rfl, hmmb, htail⟩
    | cons x r =>
      exfalso
      simp only [List.nil_append, List.cons_append] at heq
      injection heq with hhead htail
      have hfx := h2 x (by simp)
      rw [← hhead, hm] at hfx
      exact Bool.noConfusion hfx
  | cons x r ih =>
    intro es1b m mb es2 es2b heq h1 h2 hm hmb
    cases es1b with
    | nil =>
      exfalso
      simp only [List.cons_append, List.nil_append] at heq
      injection heq with hhead htail
      have hfx := h1 x (by simp)
      rw [hhead, hmb] at hfx
      exact Bool.noConfusion hfx
    | cons x2 r2 =>
      simp only [List.cons_append] at heq
      injection heq with hhead htail
      obtain ⟨ha, hb, hc⟩ := ih r2 m mb es2 es2b htail
        (fun e he => h1 e (by simp [he]))
        (fun e he => h2 e (by simp [he])) hm hmb
      exact ⟨by rw [hhead, ha], hb, hc⟩

/-- **C3** Ledger merge is append-or-update, never duplicate: merging finds a
matching entry or appends a fresh one, so the post-merge count of entries for
the task id is `max` of the previous count and 1; the merged entry carries
status `completed`, the `github` sub-object (issue url/number, branch equal to
the literal `feature/<task_id>`, and the PR url/number when supplied), and the
completion date; and on a ledger with at most one entry for the id, a second
merge with a different PR reference leaves exactly one entry for the id whose
`github` sub-object carries the latest merge's references. -/
theorem mergeLedger_spec (ledger : List (Str × Val)) (tid : Str) (iu inum : Val)
    (pr : Option (Val × Val)) (today : Str) (es : List Val)
    (hwf : ledgerTasks ledger = some es) :
    (∃ (L' : List (Str × Val)) (es' : List Val),
      mergeLedger ledger tid iu inum pr today = some L'
      ∧ ledgerTasks L' = some es'
      ∧ countEntries tid es' = max (countEntries tid es) 1
      ∧ ∃ (i : Nat) (m' : List (Str × Val)), es'[i]? = some (.vmap m')
          ∧ entryMatches tid (.vmap m') = true
          ∧ assocGet m' "status".data = some (.vstr "completed".data)
          ∧ assocGet m' "github".data = some (githubSub tid iu inum pr)
          ∧ assocGet m' "completed".data = some (.vstr today))
    ∧ (∃ gh : List (Str × Val), githubSub tid iu inum pr = .vmap gh
        ∧ assocGet gh "issue_url".data = some iu
        ∧ assocGet gh "issue_number".data = some inum
        ∧ assocGet gh "branch".data = some (.vstr ("feature/".data ++ tid))
        ∧ ∀ (u pn : Val), pr = some (u, pn) →
            assocGet gh "pr_url".data = some u
            ∧ assocGet gh "pr_number".data = some pn)
    ∧ (countEntries tid es ≤ 1 →
        ∀ (L' : List (Str × Val)),
          mergeLedger ledger tid iu inum pr today = some L' →
        ∀ (iu2 inum2 : Val) (pr2 : Option (Val × Val)) (today2 : Str),
        ∃ (L2 : List (Str × Val)) (es2 : List Val),
          mergeLedger L' tid iu2 inum2 pr2 today2 = some L2
          ∧ ledgerTasks L2 = some es2
          ∧ countEntries tid es2 = 1
          ∧ ∃ (i : Nat) (m' : List (Str × Val)), es2[i]? = some (.vmap m')
              ∧ assocGet m' "github".data = some (githubSub tid iu2 inum2 pr2)) := by
  refine ⟨?_, ?_, ?_⟩
  · obtain ⟨es', hmer, hcnt, i, m', hget, hst, hgh, hcp, hmt⟩ :=
      mergeLedger_single ledger tid iu inum pr today es hwf
    exact ⟨_, es', hmer, ledgerTasks_assocSet _ _, hcnt, i, m', hget, hmt, hst, hgh, hcp⟩
  · cases pr with
    | none =>
      refine ⟨_, rfl, rfl, rfl, rfl, ?_⟩
      intro u pn h
      exact Option.noConfusion h
    | some p =>
      obtain ⟨u, pn⟩ := p
      refine ⟨_, rfl, rfl, rfl, rfl, ?_⟩
      intro u2 pn2 h
      injection h with h2
      injection h2 with h3 h4
      subst h3
      subst h4
      exact ⟨rfl, rfl⟩
  · intro hle L' hL' iu2 inum2 pr2 today2
    obtain ⟨es', hmer, hcnt, _⟩ := mergeLedger_single ledger tid iu inum pr today es hwf
    rw [hmer] at hL'
    injection hL' with hL
    subst hL
    have hwf' : ledgerTasks (assocSet ledger "tasks".data (.vlist es')) = some es' :=
      ledgerTasks_assocSet _ _
    have hcnt1 : countEntries tid es' = 1 := by
      rw [hcnt]
      omega
    obtain ⟨es2, hmer2, hcnt2, i, m', hget, hst, hgh, hcp, hmt⟩ :=
      mergeLedger_single (assocSet ledger "tasks".data (.vlist es'))
        tid iu2 inum2 pr2 today2 es' hwf'
    refine ⟨_, es2, hmer2, ledgerTasks_assocSet _ _, ?_, i, m', hget, hgh⟩
    rw [hcnt2, hcnt1]
    simp

/-- **C10** Frame property of the ledger merge: the merge changes no top-level
ledger key other than `tasks` (in particular `version` survives); on the tasks
list, if no entry matches the task id the old entries are kept verbatim in
order and one fresh entry is appended, and if a first matching entry exists,
the entries before and after it are kept verbatim in order and within the
matched entry only the `status`, `github` and `completed` fields are
overwritten, every other field keeping its value. -/
theorem mergeLedger_frame_spec (ledger : List (Str × Val)) (tid : Str) (iu inum : Val)
    (pr : Option (Val × Val)) (today : Str) (es : List Val)
    (hwf : ledgerTasks ledger = some es) :
    ∃ (L' : List (Str × Val)), mergeLedger ledger tid iu inum pr today = some L'
      ∧ (∀ (k : Str), k ≠ "tasks".data → assocGet L' k = assocGet ledger k)
      ∧ ∃ (es' : List Val), ledgerTasks L' = some es'
        ∧ ((∀ e ∈ es, entryMatches tid e = false) →
            es' = es ++ [.vmap (applyEntryUpdates (githubSub tid iu inum pr) today
              [("id".data, .vstr tid)])])
        ∧ (∀ (es1 : List Val) (m : List (Str × Val)) (es2 : List Val),
            es = es1 ++ .vmap m :: es2 →
            (∀ e ∈ es1, entryMatches tid e = false) →
            entryMatches tid (.vmap m) = true →
            es' = es1 ++ .vmap (applyEntryUpdates (githubSub tid iu inum pr) today m) :: es2
            ∧ ∀ (k : Str), k ≠ "status".data → k ≠ "github".data →
                k ≠ "completed".data →
                assocGet (applyEntryUpdates (githubSub tid iu inum pr) today m) k
                  = assocGet m k) := by
  have hstep : mergeLedger ledger tid iu inum pr today
      = (match updateFirstEntry tid (githubSub tid iu inum pr) today es with
         | some entries2 => some (assocSet ledger "tasks".data (.vlist entries2))
         | none => some (assocSet ledger "tasks".data (.vlist (es ++
             [.vmap (applyEntryUpdates (githubSub tid iu inum pr) today
               [("id".data, .vstr tid)])])))) := by
    unfold mergeLedger
    rw [hwf]
  cases hu : updateFirstEntry tid (githubSub tid iu inum pr) today es with
  | none =>
    rw [hu] at hstep
    have hall := (updateFirstEntry_none_iff _ _ _ _).mp hu
    refine ⟨_, hstep, ?_, _, ledgerTasks_assocSet _ _, fun _ => rfl, ?_⟩
    · intro k hk
      exact assocGet_assocSet_ne _ _ _ _ hk
    · intro es1 m es2 heq _ hm
      exfalso
      have hfm := hall (.vmap m) (by rw [heq]; simp)
      rw [hm] at hfm
      exact Bool.noConfusion hfm
  | some esu =>
    rw [hu] at hstep
    obtain ⟨es1a, ma, es2a, heqa, halla, hma, hresa⟩ :=
      updateFirstEntry_some _ _ _ es esu hu
    refine ⟨_, hstep, ?_, esu, ledgerTasks_assocSet _ _, ?_, ?_⟩
    · intro k hk
      exact assocGet_assocSet_ne _ _ _ _ hk
    · intro hallnone
      exfalso
      have hfm := hallnone (.vmap ma) (by rw [heqa]; simp)
      rw [hma] at hfm
      exact Bool.noConfusion hfm
    · intro es1 m es2 heq h1 hm
      have heq2 : es1 ++ Val.vmap m :: es2 = es1a ++ Val.vmap ma :: es2a := by
        rw [← heq, ← heqa]
      obtain ⟨ha, hb, hc⟩ := first_match_decomp_unique tid es1 es1a m ma es2 es2a
        heq2 h1 halla hm hma
      subst ha
      subst hb
      subst hc
      refine ⟨hresa, ?_⟩
      intro k hk1 hk2 hk3
      exact applyEntryUpdates_frame _ _ _ _ hk1 hk2 hk3

theorem mergeLedger_spec_witness :
    ∃ (L' : List (Str × Val)) (es' : List Val),
      mergeLedger [("version".data, Val.vint 2),
          ("tasks".data, Val.vlist [Val.vmap [("id".data, Val.vstr "T001".data)]])]
        "T001".data (Val.vstr "u".data) (Val.vint 5)
        (some (Val.vstr "pu".data, Val.vint 7)) "2026-10-12".data = some L'
      ∧ ledgerTasks L' = some es'
      ∧ countEntries "T001".data es'
          = max (countEntries "T001".data [Val.vmap [("id".data, Val.vstr "T001".data)]]) 1
      ∧ ∃ (i : Nat) (m' : List (Str × Val)), es'[i]? = some (.vmap m')
          ∧ entryMatches "T001".data (.vmap m') = true
          ∧ assocGet m' "status".data = some (.vstr "completed".data)
          ∧ assocGet m' "github".data = some (githubSub "T001".data (Val.vstr "u".data)
              (Val.vint 5) (some (Val.vstr "pu".data, Val.vint 7)))
          ∧ assocGet m' "completed".data = some (.vstr "2026-10-12".data) :=
  (mergeLedger_spec [("version".data, Val.vint 2),
      ("tasks".data, Val.vlist [Val.vmap [("id".data, Val.vstr "T001".data)]])]
    "T001".data (Val.vstr "u".data) (Val.vint 5)
    (some (Val.vstr "pu".data, Val.vint 7)) "2026-10-12".data
    [Val.vmap [("id".data, Val.vstr "T001".data)]] (by rfl)).1

theorem mergeLedger_frame_spec_witness :
    ∃ (L' : List (Str × Val)),
      mergeLedger [("version".data, Val.vint 2),
          ("tasks".data, Val.vlist [Val.vmap [("id".data, Val.vstr "T001".data),
            ("title".data, Val.vstr "X".data)]])]
        "T001".data (Val.vstr "u".data) (Val.vint 5) none "2026-10-12".data = some L'
      ∧ (∀ (k : Str), k ≠ "tasks".data → assocGet L' k
          = assocGet [("version".data, Val.vint 2),
              ("tasks".data, Val.vlist [Val.vmap [("id".data, Val.vstr "T001".data),
                ("title".data, Val.vstr "X".data)]])] k)
      ∧ ∃ (es' : List Val), ledgerTasks L' = some es'
        ∧ ((∀ e ∈ [Val.vmap [("id".data, Val.vstr "T001".data),
              ("title".data, Val.vstr "X".data)]],
            entryMatches "T001".data e = false) →
            es' = [Val.vmap [("id".data, Val.vstr "T001".data),
                ("title".data, Val.vstr "X".data)]]
              ++ [.vmap (applyEntryUpdates (githubSub "T001".data (Val.vstr "u".data)
                  (Val.vint 5) none) "2026-10-12".data
                [("id".data, .vstr "T001".data)])])
        ∧ (∀ (es1 : List Val) (m : List (Str × Val)) (es2 : List Val),
            [Val.vmap [("id".data, Val.vstr "T001".data),
              ("title".data, Val.vstr "X".data)]] = es1 ++ .vmap m :: es2 →
            (∀ e ∈ es1, entryMatches "T001".data e = false) →
            entryMatches "T001".data (.vmap m) = true →
            es' = es1 ++ .vmap (applyEntryUpdates (githubSub "T001".data
                (Val.vstr "u".data) (Val.vint 5) none) "2026-10-12".data m) :: es2
            ∧ ∀ (k : Str), k ≠ "status".data → k ≠ "github".data →
                k ≠ "completed".data →
                assocGet (applyEntryUpdates (githubSub "T001".data (Val.vstr "u".data)
                    (Val.vint 5) none) "2026-10-12".data m) k
                  = assocGet m k) :=
  mergeLedger_frame_spec [("version".data, Val.vint 2),
      ("tasks".data, Val.vlist [Val.vmap [("id".data, Val.vstr "T001".data),
        ("title".data, Val.vstr "X".data)]])]
    "T001".data (Val.vstr "u".data) (Val.vint 5) none "2026-10-12".data
    [Val.vmap [("id".data, Val.vstr "T001".data),
      ("title".data, Val.vstr "X".data)]] (by rfl)
